import Mathlib

/-!
Shallow embedding of the scoring pipeline and job-service layer of the
openreview-expertise repository, together with proofs about the claims of
its specification.

Part 1 embeds `expertise/models/specter2_scincl/specter.py`:
`Specter2Predictor.all_scores`, its nested `load_emb_file`,
`_sparse_scores_helper` and `sparse_scores`.

Part 2 embeds `expertise/service/expertise.py` (`ExpertiseService`) and
`expertise/service/utils.py` (`APIRequest`, `JobConfig`).

Scores, which are Python floats in the source, are modelled as rationals;
the single float-specific behaviour the claims touch (the NaN produced by
`torch.mean` over an empty dimension) is modelled explicitly by the
`TorchVal` type.  Python exceptions are modelled by the `PyErr` error type
of an `Except` monad.
-/

/-- Python exceptions raised by the embedded code paths. -/
inductive PyErr where
  /-- `RuntimeError("Call all_scores before calling sparse_scores")`. -/
  | runtimeNotReady
  /-- `IndexError` from `self.preliminary_scores[0]` on an empty list. -/
  | indexOutOfRange
  /-- a failed `assert` statement (`AssertionError`). -/
  | assertFailed
  /-- `RuntimeError` from `torch.max` over an empty reduction dimension. -/
  | dimMaxEmpty
  /-- Python `KeyError`. -/
  | keyMissing
  /-- `OpenReviewException('Job not found')`. -/
  | notFoundJob
  /-- `OpenReviewException('Forbidden: Insufficient permissions to access job')`. -/
  | forbiddenAccess
  /-- `OpenReviewException('Forbidden: Insufficient permissions to modify job')`. -/
  | forbiddenModify
  /-- `OpenReviewException('Single job not found: multiple matching jobs returned')`. -/
  | multipleJobs
  /-- `OpenReviewException("Bad request: required field missing in <superkey>: <key>")`. -/
  | missingField (superkey key : String)
  /-- `OpenReviewException("Bad request: unexpected fields in <superkey>: <keys>")`. -/
  | unexpectedFields (superkey : String) (keys : List String)
  /-- `OpenReviewException("Bad request: no valid <type> properties in <entity_id>")`. -/
  | noValidProperties (entityId : String)
  /-- `OpenReviewException("Bad request: invalid type in <entity_id>")`. -/
  | invalidType (entityId : String)
  /-- `OpenReviewException("Bad request: only provide a single id or single invitation in <entity_id>")`. -/
  | onlySingleIdOrInvitation (entityId : String)
  /-- Python `AttributeError` (entity payload is not a dict). -/
  | attrError
  /-- Python `NameError` (`all_paper_aff` unbound when neither score flag is set). -/
  | nameUnbound
deriving DecidableEq, Repr

/-- One element of `Specter2Predictor.preliminary_scores`: the tuple
`(note_id, reviewer_id, score)` built in `all_scores`. -/
structure ScoreEntry where
  noteId : String
  profileId : String
  score : ℚ
deriving DecidableEq, Repr

/-! ### Sparsification (`sparse_scores` and `_sparse_scores_helper`)

`sparse_scores` performs `self.preliminary_scores.sort(key=lambda x: (x[0], x[2]),
reverse=True)`.  Python's sort is stable and `reverse=True` keeps equal
elements in their original order, which is exactly the behaviour of
`List.insertionSort r` for the relation `r a b` = "key of `a` is
lexicographically at least key of `b`". -/

/-- Relation ordering entries descending by `(note_id, score)`:
`a` may precede `b`. -/
def noteKeyLe (a b : ScoreEntry) : Prop :=
  b.noteId < a.noteId ∨ (b.noteId = a.noteId ∧ b.score ≤ a.score)

/-- Relation ordering entries descending by `(profile_id, score)`. -/
def profileKeyLe (a b : ScoreEntry) : Prop :=
  b.profileId < a.profileId ∨ (b.profileId = a.profileId ∧ b.score ≤ a.score)

instance : DecidableRel noteKeyLe := fun _ _ =>
  inferInstanceAs (Decidable (_ ∨ _))

instance : DecidableRel profileKeyLe := fun _ _ =>
  inferInstanceAs (Decidable (_ ∨ _))

instance : IsTotal ScoreEntry noteKeyLe where
  total a b := by
    rcases lt_trichotomy a.noteId b.noteId with h | h | h
    · exact Or.inr (Or.inl h)
    · rcases le_total b.score a.score with hs | hs
      · exact Or.inl (Or.inr ⟨h.symm, hs⟩)
      · exact Or.inr (Or.inr ⟨h, hs⟩)
    · exact Or.inl (Or.inl h)

instance : IsTrans ScoreEntry noteKeyLe where
  trans a b c hab hbc := by
    rcases hab with h1 | ⟨h1, s1⟩ <;> rcases hbc with h2 | ⟨h2, s2⟩
    · exact Or.inl (lt_trans h2 h1)
    · exact Or.inl (h2 ▸ h1)
    · exact Or.inl (h1 ▸ h2)
    · exact Or.inr ⟨h2.trans h1, s2.trans s1⟩

instance : IsTotal ScoreEntry profileKeyLe where
  total a b := by
    rcases lt_trichotomy a.profileId b.profileId with h | h | h
    · exact Or.inr (Or.inl h)
    · rcases le_total b.score a.score with hs | hs
      · exact Or.inl (Or.inr ⟨h.symm, hs⟩)
      · exact Or.inr (Or.inr ⟨h, hs⟩)
    · exact Or.inl (Or.inl h)

instance : IsTrans ScoreEntry profileKeyLe where
  trans a b c hab hbc := by
    rcases hab with h1 | ⟨h1, s1⟩ <;> rcases hbc with h2 | ⟨h2, s2⟩
    · exact Or.inl (lt_trans h2 h1)
    · exact Or.inl (h2 ▸ h1)
    · exact Or.inl (h1 ▸ h2)
    · exact Or.inr ⟨h2.trans h1, s2.trans s1⟩

/-- The first `sort` of `sparse_scores`: descending by `(note_id, score)`, stable. -/
def sortByNoteDesc (l : List ScoreEntry) : List ScoreEntry :=
  l.insertionSort noteKeyLe

/-- The second `sort` of `sparse_scores`: descending by `(profile_id, score)`, stable. -/
def sortByProfileDesc (l : List ScoreEntry) : List ScoreEntry :=
  l.insertionSort profileKeyLe

/-- The `for` loop of `_sparse_scores_helper`.  `f` projects the id compared
against `current_id` (`x[0]` for the note pass, `x[1]` for the profile pass).
The `elif` branch of the source sets the counter to `0`, adds the entry and
then increments, hence the recursive call with counter `1`. -/
def sparseHelperLoop (f : ScoreEntry → String) (sparseValue : ℕ) :
    List ScoreEntry → ℕ → String → Finset ScoreEntry → Finset ScoreEntry
  | [], _, _, acc => acc
  | e :: rest, counter, currentId, acc =>
    if counter < sparseValue then
      sparseHelperLoop f sparseValue rest (counter + 1) currentId (insert e acc)
    else if f e ≠ currentId then
      sparseHelperLoop f sparseValue rest 1 (f e) (insert e acc)
    else
      sparseHelperLoop f sparseValue rest (counter + 1) currentId acc

/-- `Specter2Predictor._sparse_scores_helper`: reads
`self.preliminary_scores[0]` (an `IndexError` on an empty list), then walks
the whole list accumulating into the given set. -/
def sparseScoresHelper (f : ScoreEntry → String) (sparseValue : ℕ)
    (scores : List ScoreEntry) (allScores : Finset ScoreEntry) :
    Except PyErr (Finset ScoreEntry) :=
  match scores with
  | [] => .error .indexOutOfRange
  | e0 :: rest => .ok (sparseHelperLoop f sparseValue (e0 :: rest) 0 (f e0) allScores)

/-- The body of `Specter2Predictor.sparse_scores` once `preliminary_scores`
is known to be set: sort by `(note_id, score)` descending, run the helper
with `id_index = 0`, re-sort the same list by `(profile_id, score)`
descending, run the helper with `id_index = 1` on the accumulated set.
The source finally sorts the set into a list; membership in the returned
collection equals membership in this set. -/
def sparseScoresOf (prelim : List ScoreEntry) (sparseValue : ℕ) :
    Except PyErr (Finset ScoreEntry) := do
  let pass1 ← sparseScoresHelper ScoreEntry.noteId sparseValue
    (sortByNoteDesc prelim) ∅
  let pass2 ← sparseScoresHelper ScoreEntry.profileId sparseValue
    (sortByProfileDesc (sortByNoteDesc prelim)) pass1
  return pass2

/-- The predictor state relevant to the scoring claims: the two score-mode
flags fixed by `__init__`, the `sparse_value`, and `preliminary_scores`
(`None` until `all_scores` has run). -/
structure Specter2Predictor where
  averageScore : Bool
  maxScore : Bool
  sparseValue : ℕ
  preliminaryScores : Option (List ScoreEntry)
deriving DecidableEq, Repr

/-- The `assert max_score ^ average_score` of `Specter2Predictor.__init__`. -/
def mkSpecter2Predictor (averageScore maxScore : Bool) (sparseValue : ℕ) :
    Except PyErr Specter2Predictor :=
  if xor maxScore averageScore then
    .ok ⟨averageScore, maxScore, sparseValue, none⟩
  else
    .error .assertFailed

/-- `Specter2Predictor.sparse_scores`: raises `RuntimeError` when
`preliminary_scores is None`, otherwise sparsifies. -/
def Specter2Predictor.sparseScores (p : Specter2Predictor) :
    Except PyErr (Finset ScoreEntry) :=
  match p.preliminaryScores with
  | none => .error .runtimeNotReady
  | some prelim => sparseScoresOf prelim p.sparseValue

/-- The top-`k` entries of note `n`: the first `k` entries carrying `n`
in the list sorted descending by `(note_id, score)` — i.e. ranked by
descending score with ties broken by scan order, as the stable sort leaves
tied entries in their original order. -/
def topKByNote (prelim : List ScoreEntry) (k : ℕ) (n : String) : List ScoreEntry :=
  ((sortByNoteDesc prelim).filter (fun e => e.noteId == n)).take k

/-- The top-`k` entries of profile `pid` in the list scanned by the second
pass (the first-pass list re-sorted descending by `(profile_id, score)`). -/
def topKByProfile (prelim : List ScoreEntry) (k : ℕ) (pid : String) : List ScoreEntry :=
  ((sortByProfileDesc (sortByNoteDesc prelim)).filter (fun e => e.profileId == pid)).take k

/-! ### Run structure of id-sorted lists -/

/-- No entry of `l` carries id `x` (under projection `f`). -/
def NoId (f : ScoreEntry → String) (x : String) (l : List ScoreEntry) : Prop :=
  ∀ e ∈ l, f e ≠ x

/-- All entries of `l` carrying id `x` form a prefix run of `l`. -/
def HeadRun (f : ScoreEntry → String) (x : String) : List ScoreEntry → Prop
  | [] => True
  | e :: rest => (f e = x ∧ HeadRun f x rest) ∨ NoId f x (e :: rest)

/-- The entries of `l` carrying id `x` are contiguous in `l`. -/
def ContigId (f : ScoreEntry → String) (x : String) : List ScoreEntry → Prop
  | [] => True
  | e :: rest => (f e = x → HeadRun f x rest) ∧ ContigId f x rest

instance {ε α : Type} [DecidableEq ε] [DecidableEq α] : DecidableEq (Except ε α)
  | .error e, .error e' =>
    if h : e = e' then isTrue (by rw [h])
    else isFalse (fun hc => h (by cases hc; rfl))
  | .error _, .ok _ => isFalse (fun hc => by cases hc)
  | .ok _, .error _ => isFalse (fun hc => by cases hc)
  | .ok a, .ok b =>
    if h : a = b then isTrue (by rw [h])
    else isFalse (fun hc => h (by cases hc; rfl))

/-- Concrete single-pass input for the sparsifier: one entry for note
`"b"` followed by seven entries for note `"a"`, already sorted descending
by `(note_id, score)`. -/
def c2NotePassList : List ScoreEntry :=
  [⟨"b", "p0", 10⟩, ⟨"a", "p1", 7⟩, ⟨"a", "p2", 6⟩, ⟨"a", "p3", 5⟩,
   ⟨"a", "p4", 4⟩, ⟨"a", "p5", 3⟩, ⟨"a", "p6", 2⟩, ⟨"a", "p7", 1⟩]

/-! ### Embedding of `all_scores` and its nested `load_emb_file` -/

/-- One line of a cached embedding file:
`{'paper_id': ..., 'embedding': [...]}`. -/
structure EmbeddingRecord where
  paperId : String
  embedding : List ℚ
deriving DecidableEq, Repr

/-- `paper_emb_size_default = 768` in `load_emb_file`. -/
def paperEmbSizeDefault : ℕ := 768

/-- Result of `load_emb_file`: the id list, the embedding rows (bad rows
replaced by zero vectors), and the bad-id set. -/
structure LoadedEmb where
  idList : List String
  embList : List (List ℚ)
  badIdSet : Finset String
deriving DecidableEq

/-- `load_emb_file` of `all_scores`: asserts each embedding is empty or of
length 768; an empty embedding is replaced by a zero vector and its id is
added to the bad-id set; ids are collected in file order either way. -/
def loadEmbFile : List EmbeddingRecord → Except PyErr LoadedEmb
  | [] => .ok ⟨[], [], ∅⟩
  | r :: rest =>
    if r.embedding.length = 0 then
      match loadEmbFile rest with
      | .error e => .error e
      | .ok l => .ok ⟨r.paperId :: l.idList,
          List.replicate paperEmbSizeDefault 0 :: l.embList,
          insert r.paperId l.badIdSet⟩
    else if r.embedding.length = paperEmbSizeDefault then
      match loadEmbFile rest with
      | .error e => .error e
      | .ok l => .ok ⟨r.paperId :: l.idList, r.embedding :: l.embList,
          l.badIdSet⟩
    else .error .assertFailed

/-- A value in a torch tensor: a number, or the NaN produced by reducing
over an empty dimension. -/
inductive TorchVal where
  | num (q : ℚ)
  | nan
deriving DecidableEq, Repr

/-- One `(note_id, reviewer, score)` tuple appended by `all_scores` to
`csv_scores` and `preliminary_scores`. -/
structure RawScoreEntry where
  noteId : String
  profileId : String
  value : TorchVal
deriving DecidableEq, Repr

/-- `torch.sum(u * v)` for two rows: the dot product. -/
def dotProduct (u v : List ℚ) : ℚ :=
  (List.zipWith (fun a b => a * b) u v).sum

/-- One row of `tensor.mean(dim=1)`: NaN when the reduced dimension is
empty. -/
def torchMeanDim1 (row : List ℚ) : TorchVal :=
  if row.length = 0 then .nan else .num (row.sum / (row.length : ℚ))

/-- Binary maximum on rationals, written so that it evaluates inside the
kernel. -/
def qmax (a b : ℚ) : ℚ := if a ≤ b then b else a

/-- Maximum of a list of rationals (`torch.max(dim=1)` on one row; the
empty case never arises because `torch.max` raises first). -/
def qListMax : List ℚ → ℚ
  | [] => 0
  | q :: rest => rest.foldl qmax q

/-- `paper_id2train_idx`: built by `for idx, paper_id in enumerate(...)`,
so a duplicated id keeps its last index; `none` models the `KeyError` for
an id absent from the list. -/
def lastTrainIdx (ids : List String) (pid : String) : Option ℕ :=
  match (ids.reverse).findIdx? (fun s => s == pid) with
  | none => none
  | some j => some (ids.length - 1 - j)

/-- The `train_paper_idx` loop: ids in the bad set are skipped, the rest
are looked up in `paper_id2train_idx` (a `KeyError` when absent). -/
def collectTrainIdx (trainIds : List String) (trainBad : Finset String) :
    List String → Except PyErr (List ℕ)
  | [] => .ok []
  | pid :: rest =>
    if pid ∈ trainBad then collectTrainIdx trainIds trainBad rest
    else
      match lastTrainIdx trainIds pid with
      | none => .error .keyMissing
      | some i =>
        match collectTrainIdx trainIds trainBad rest with
        | .error e => .error e
        | .ok t => .ok (i :: t)

/-- `all_paper_aff`: the reduction over the selected affinity columns.
`torch.mean` over an empty column selection yields a NaN per row;
`torch.max` raises even before any row is read.  The branch is chosen by
`if self.average_score: ... elif self.max_score: ...`; with both flags
false the name `all_paper_aff` would be unbound (`NameError`). -/
def allPaperAff (averageScore maxScore : Bool) (aff : ℕ → ℕ → ℚ)
    (idxs : List ℕ) (numTest : ℕ) : Except PyErr (List TorchVal) :=
  if averageScore then
    .ok ((List.range numTest).map
      (fun j => torchMeanDim1 (idxs.map (fun i => aff j i))))
  else if maxScore then
    if idxs.length = 0 then .error .dimMaxEmpty
    else .ok ((List.range numTest).map
      (fun j => .num (qListMax (idxs.map (fun i => aff j i)))))
  else .error .nameUnbound

/-- One iteration of the reviewer loop of `all_scores`: a reviewer with an
empty publication list is skipped by `continue`; otherwise one entry per
cached submission is appended, in submission order. -/
def reviewerScoreEntries (averageScore maxScore : Bool) (aff : ℕ → ℕ → ℚ)
    (testIds trainIds : List String) (trainBad : Finset String)
    (reviewerId : String) (pubs : List String) :
    Except PyErr (List RawScoreEntry) :=
  if pubs.length = 0 then .ok []
  else
    match collectTrainIdx trainIds trainBad pubs with
    | .error e => .error e
    | .ok idxs =>
      match allPaperAff averageScore maxScore aff idxs testIds.length with
      | .error e => .error e
      | .ok vals =>
        .ok ((testIds.zip vals).map (fun p => ⟨p.1, reviewerId, p.2⟩))

/-- The reviewer loop of `all_scores` over the
`pub_author_ids_to_note_id` items. -/
def allScoresLoop (averageScore maxScore : Bool) (aff : ℕ → ℕ → ℚ)
    (testIds trainIds : List String) (trainBad : Finset String) :
    List (String × List String) → Except PyErr (List RawScoreEntry)
  | [] => .ok []
  | (rid, pubs) :: rest =>
    match reviewerScoreEntries averageScore maxScore aff testIds trainIds
      trainBad rid pubs with
    | .error e => .error e
    | .ok es =>
      match allScoresLoop averageScore maxScore aff testIds trainIds
        trainBad rest with
      | .error e => .error e
      | .ok tail => .ok (es ++ tail)

/-- Row normalisation
`emb_tensor / (emb_tensor.norm(dim=1, keepdim=True) + 1e-12)`.  The L2
norm is a floating-point square root in the source and is abstracted as
the `rowNorm` parameter; the claims under study do not depend on its
value. -/
def normalizeRows (rowNorm : List ℚ → ℚ) (rows : List (List ℚ)) :
    List (List ℚ) :=
  rows.map (fun v => v.map (fun q => q / rowNorm v))

/-- `Specter2Predictor.all_scores` (file-based path): load the cached
publication and submission embeddings, normalise the rows, form the
affinity matrix `p2p_aff` of pairwise dot products, then run the reviewer
loop.  (The min-max normalisation in the source is commented out.) -/
def allScoresCompute (rowNorm : List ℚ → ℚ)
    (trainRecs testRecs : List EmbeddingRecord)
    (pubAuthorIdsToNoteId : List (String × List String))
    (averageScore maxScore : Bool) : Except PyErr (List RawScoreEntry) :=
  match loadEmbFile trainRecs with
  | .error e => .error e
  | .ok train =>
    match loadEmbFile testRecs with
    | .error e => .error e
    | .ok test =>
      allScoresLoop averageScore maxScore
        (fun i j => dotProduct ((normalizeRows rowNorm test.embList).getD i [])
          ((normalizeRows rowNorm train.embList).getD j []))
        test.idList train.idList train.badIdSet pubAuthorIdsToNoteId

/-- The affinity matrix used in the specification's aggregation example:
one submission, two reviewer publications scoring 0.9 and 0.2. -/
def c5Aff : ℕ → ℕ → ℚ := fun _ i => if i = 0 then 9 / 10 else 1 / 5

/-! ### Embedding of the job service
(`expertise/service/expertise.py` and `expertise/service/utils.py`)

Request and config payloads are JSON dictionaries.  The validators only
inspect two levels of nesting (the request and its entity objects); deeper
payloads (such as the `expertise.exclusion` object) are popped opaquely,
and are represented flattened as string pairs. -/

/-- A value inside an entity object. -/
inductive AVal where
  | str (s : String)
  | nat (n : ℕ)
  /-- a nested object, opaque to the validators. -/
  | obj (fields : List (String × String))
deriving DecidableEq, Repr

/-- A value inside a request or a job config. -/
inductive RVal where
  | str (s : String)
  | nat (n : ℕ)
  /-- a nested object (an entity, the model object, ...). -/
  | obj (fields : List (String × AVal))
deriving DecidableEq, Repr

/-- Python `str.lower`, written over the character list so that it
evaluates in the kernel. -/
def strLower (s : String) : String := ⟨s.data.map Char.toLower⟩

/-- Dictionary lookup (`d[k]` when present, `k in d`). -/
def kvLookup {α : Type} (k : String) : List (String × α) → Option α
  | [] => none
  | (k', v) :: rest => if k' = k then some v else kvLookup k rest

/-- Key removal, the side effect of Python `d.pop(k)`. -/
def kvErase {α : Type} (k : String) (l : List (String × α)) :
    List (String × α) :=
  l.filter (fun p => decide (p.1 ≠ k))

/-- Dictionary assignment `d[k] = v`: replaces in place when the key
exists, appends otherwise (insertion-order semantics). -/
def kvSet {α : Type} (k : String) (v : α) (l : List (String × α)) :
    List (String × α) :=
  if (kvLookup k l).isSome then
    l.map (fun p => if p.1 = k then (k, v) else p)
  else l ++ [(k, v)]

/-- `_get_required_field` of `expertise/service/utils.py`: pops a key,
raising `BadRequest` when missing. -/
def getRequiredField {α : Type} (req : List (String × α))
    (superkey key : String) : Except PyErr (α × List (String × α)) :=
  match kvLookup key req with
  | none => .error (.missingField superkey key)
  | some v => .ok (v, kvErase key req)

/-- The target entity built by `APIRequest._load_entity`. -/
structure EntityView where
  type : AVal
  memberOf : Option AVal
  expertise : Option AVal
  invitation : Option AVal
  id : Option AVal
deriving DecidableEq, Repr

/-- `APIRequest._load_entity`: validates one entity object.  A non-dict
payload raises `AttributeError` (its keys are accessed); a `Group` needs
`memberOf` (with optional `expertise`); a `Note` needs exactly one of
`invitation` or `id`; leftover fields are rejected. -/
def loadEntity (entityId : String) (src : RVal) :
    Except PyErr EntityView :=
  match src with
  | .str _ => .error .attrError
  | .nat _ => .error .attrError
  | .obj fields =>
    match getRequiredField fields entityId "type" with
    | .error e => .error e
    | .ok (ty, rest) =>
      if ty = .str "Group" then
        match kvLookup "memberOf" rest with
        | some _ =>
          match getRequiredField rest entityId "memberOf" with
          | .error e => .error e
          | .ok (m, rest2) =>
            match kvLookup "expertise" rest2 with
            | some ex =>
              let rest3 := kvErase "expertise" rest2
              if rest3.isEmpty then .ok ⟨ty, some m, some ex, none, none⟩
              else .error (.unexpectedFields entityId
                (rest3.map (fun p => p.1)))
            | none =>
              if rest2.isEmpty then .ok ⟨ty, some m, none, none, none⟩
              else .error (.unexpectedFields entityId
                (rest2.map (fun p => p.1)))
        | none => .error (.noValidProperties entityId)
      else if ty = .str "Note" then
        if (kvLookup "invitation" rest).isSome && (kvLookup "id" rest).isSome
        then .error (.onlySingleIdOrInvitation entityId)
        else
          match kvLookup "invitation" rest with
          | some inv =>
            let rest2 := kvErase "invitation" rest
            if rest2.isEmpty then .ok ⟨ty, none, none, some inv, none⟩
            else .error (.unexpectedFields entityId
              (rest2.map (fun p => p.1)))
          | none =>
            match kvLookup "id" rest with
            | some idv =>
              let rest2 := kvErase "id" rest
              if rest2.isEmpty then .ok ⟨ty, none, none, none, some idv⟩
              else .error (.unexpectedFields entityId
                (rest2.map (fun p => p.1)))
            | none => .error (.noValidProperties entityId)
      else .error (.invalidType entityId)

/-- The validated request built by `APIRequest.__init__`. -/
structure APIRequestView where
  name : RVal
  entityA : EntityView
  entityB : EntityView
  model : RVal
deriving DecidableEq, Repr

/-- `APIRequest.__init__`: requires `name`, `entityA` and `entityB`
(validating the entities), pops the optional `model` object, and rejects
any leftover field. -/
def validateAPIRequest (request : List (String × RVal)) :
    Except PyErr APIRequestView :=
  match getRequiredField request "request" "name" with
  | .error e => .error e
  | .ok (name, r1) =>
    match getRequiredField r1 "request" "entityA" with
    | .error e => .error e
    | .ok (entA, r2) =>
      match getRequiredField r2 "request" "entityB" with
      | .error e => .error e
      | .ok (entB, r3) =>
        match loadEntity "entityA" entA with
        | .error e => .error e
        | .ok va =>
          match loadEntity "entityB" entB with
          | .error e => .error e
          | .ok vb =>
            match kvLookup "model" r3 with
            | some m =>
              let r4 := kvErase "model" r3
              if r4.isEmpty then .ok ⟨name, va, vb, m⟩
              else .error (.unexpectedFields "request"
                (r4.map (fun p => p.1)))
            | none =>
              if r3.isEmpty then .ok ⟨name, va, vb, .obj []⟩
              else .error (.unexpectedFields "request"
                (r3.map (fun p => p.1)))

/-- `self.req_fields` of `ExpertiseService.__init__`. -/
def reqFields : List String := ["name", "match_group", "user_id", "job_id"]

/-- `self.optional_fields` of `ExpertiseService.__init__`. -/
def optionalFields : List String :=
  ["model", "model_params", "exclusion_inv", "token", "baseurl",
   "baseurl_v2", "paper_invitation", "paper_id"]

/-- Modelled from the spec: `ServerConfig` is imported from
`expertise.service.utils` by `expertise.py` but absent from the
repository's sources (only its caller `_prepare_config` and the field
lists above exist).  The spec says `submit` "validates required fields
are present and no unexpected fields exist (rejects with `BadRequest`
otherwise)"; this validator implements exactly that over the service's
declared field lists. -/
def serverConfigValidate (request : List (String × RVal)) :
    Except PyErr (List (String × RVal)) :=
  match reqFields.find? (fun k => (kvLookup k request).isNone) with
  | some k => .error (.missingField "request" k)
  | none =>
    match (request.map (fun p => p.1)).find?
        (fun k => !((reqFields ++ optionalFields).contains k)) with
    | some k => .error (.unexpectedFields "request" [k])
    | none => .ok request

/-- The externally visible steps of `start_expertise`, in program
order. -/
inductive SubmitEvent where
  /-- `job_id = shortuuid.ShortUUID().random(length=5)`. -/
  | allocatedJobId (id : String)
  /-- a `json.dump(config, ...)` into the job's `config.json`. -/
  | wroteConfigJson (jobId : String) (config : List (String × RVal))
  /-- `_add_to_user_index`. -/
  | addedToUserIndex (userId jobId : String)
  /-- `run_userpaper.apply_async((config, token, ...))`. -/
  | enqueuedTask (jobId : String) (config : List (String × RVal))
      (token : RVal)
deriving DecidableEq, Repr

/-- `config['job_id']` as a string. -/
def jobIdOf (config : List (String × RVal)) : String :=
  match kvLookup "job_id" config with
  | some (.str s) => s
  | _ => ""

/-- `config['user_id']` as a string. -/
def userIdOf (config : List (String × RVal)) : String :=
  match kvLookup "user_id" config with
  | some (.str s) => s
  | _ => ""

/-- The server-side field assignments of `_prepare_config`: the dataset
directory and path fields all point into the job's root directory, and the
`Initialized` status fields are set. -/
def serverFields (workingDir : String) (now : ℕ)
    (config : List (String × RVal)) : List (String × RVal) :=
  kvSet "description" (.str "Server received config and allocated space")
    (kvSet "status" (.str "Initialized")
      (kvSet "mdate" (.nat now)
        (kvSet "cdate" (.nat now)
          (kvSet "job_dir" (.str (workingDir ++ "/" ++ jobIdOf config))
            config))))

/-- `ExpertiseService._prepare_config`: validates the request, fills in
the server-side fields, pops the token (`config.pop('token')`, a
`KeyError` when absent) and only then writes the `Initialized`
`config.json`. -/
def prepareConfig (workingDir : String) (now : ℕ)
    (request : List (String × RVal)) :
    Except PyErr (List (String × RVal) × RVal × List SubmitEvent) :=
  match serverConfigValidate request with
  | .error e => .error e
  | .ok config =>
    match kvLookup "token" (serverFields workingDir now config) with
    | none => .error .keyMissing
    | some token =>
      .ok (kvErase "token" (serverFields workingDir now config), token,
        [.wroteConfigJson (jobIdOf config)
          (kvErase "token" (serverFields workingDir now config))])

/-- The `Queued` status update applied by `start_expertise` before it
indexes, enqueues and rewrites the config. -/
def queuedConfig (now : ℕ) (config : List (String × RVal)) :
    List (String × RVal) :=
  kvSet "description"
    (.str "Job is waiting to start fetching OpenReview data")
    (kvSet "status" (.str "Queued") (kvSet "mdate" (.nat now) config))

/-- `ExpertiseService.start_expertise`: allocates the fresh job id and
stores it into the request before any validation runs, then prepares the
config, marks it `Queued`, registers the job in the user index, enqueues
the task and rewrites `config.json`. -/
def startExpertise (freshId workingDir : String) (now : ℕ)
    (request : List (String × RVal)) :
    Except PyErr String × List SubmitEvent :=
  match prepareConfig workingDir now
    (kvSet "job_id" (.str freshId) request) with
  | .error e => (.error e, [.allocatedJobId freshId])
  | .ok (config, token, evPrep) =>
    (.ok freshId,
      .allocatedJobId freshId :: evPrep ++
      [.addedToUserIndex (userIdOf (queuedConfig now config)) freshId,
       .enqueuedTask freshId (queuedConfig now config) token,
       .wroteConfigJson freshId (queuedConfig now config)])

/-- One job directory under `working_dir`, with its `config.json`. -/
structure JobDirRecord where
  dirName : String
  config : List (String × RVal)
deriving DecidableEq, Repr

/-- The service's on-disk state: the job directories and `index.json`. -/
structure ServiceState where
  dirs : List JobDirRecord
  index : List (String × List String)
deriving DecidableEq, Repr

/-- `SUPERUSER_IDS`. -/
def superuserIds : List String := ["openreview.net"]

/-- `ExpertiseService._get_subdirs`: superusers (after lowercasing) see
every directory; others only those whose `config.json` carries their
`user_id`. -/
def getSubdirs (st : ServiceState) (userId : String) : List JobDirRecord :=
  if strLower userId ∈ superuserIds then st.dirs
  else st.dirs.filter (fun d =>
    match kvLookup "user_id" d.config with
    | some (.str s) => s == userId
    | _ => false)

/-- `ExpertiseService._filter_config`: deletes `baseurl` and `user_id`
(`del` raises `KeyError` when a key is absent). -/
def filterConfig (config : List (String × RVal)) :
    Except PyErr (List (String × RVal)) :=
  match kvLookup "baseurl" config with
  | none => .error .keyMissing
  | some _ =>
    let c1 := kvErase "baseurl" config
    match kvLookup "user_id" c1 with
    | none => .error .keyMissing
    | some _ => .ok (kvErase "user_id" c1)

/-- The dictionary returned by `get_expertise_status`. -/
structure JobView where
  jobId : String
  name : RVal
  status : RVal
  description : RVal
  cdate : RVal
  mdate : RVal
  config : List (String × RVal)
deriving DecidableEq, Repr

/-- Reads `config[k]` (`KeyError` when absent). -/
def requireKey (config : List (String × RVal)) (k : String) :
    Except PyErr RVal :=
  match kvLookup k config with
  | none => .error .keyMissing
  | some v => .ok v

/-- Builds the status dictionary of `get_expertise_status` from one job
directory. -/
def buildJobView (d : JobDirRecord) : Except PyErr JobView :=
  match requireKey d.config "status" with
  | .error e => .error e
  | .ok status =>
    match requireKey d.config "description" with
    | .error e => .error e
    | .ok description =>
      match filterConfig d.config with
      | .error e => .error e
      | .ok fc =>
        match requireKey d.config "name" with
        | .error e => .error e
        | .ok name =>
          match requireKey d.config "cdate" with
          | .error e => .error e
          | .ok cdate =>
            match requireKey d.config "mdate" with
            | .error e => .error e
            | .ok mdate =>
              .ok ⟨d.dirName, name, status, description, cdate, mdate, fc⟩

/-- The `job_subdirs` list of `get_expertise_status` after the
`name == job_id` filter. -/
def matchingDirs (st : ServiceState) (userId jobId : String) :
    List JobDirRecord :=
  (getSubdirs st userId).filter (fun d => d.dirName == jobId)

/-- `ExpertiseService.get_expertise_status(user_id, job_id)`: filters the
visible directories down to the requested job id, and raises `Job not
found` when none matches.  The function only reads; the returned state is
the input state — in particular `index.json` is never touched. -/
def getExpertiseStatus (st : ServiceState) (userId jobId : String) :
    Except PyErr JobView × ServiceState :=
  if 1 < (matchingDirs st userId jobId).length then (.error .multipleJobs, st)
  else
    match matchingDirs st userId jobId with
    | [] => (.error .notFoundJob, st)
    | d :: _ => (buildJobView d, st)

/-- One pickled `JobConfig` in Redis (`job:<id>` key). -/
structure RedisJob where
  jobId : String
  userId : String
  jobDir : String
deriving DecidableEq, Repr

/-- The Redis store together with the directories existing on disk. -/
structure RedisState where
  store : List RedisJob
  fsDirs : List String
deriving DecidableEq, Repr

/-- `JobConfig.remove_job`: `Job not found` for an unknown id, `Forbidden`
for a non-owning, non-superuser caller, otherwise deletes the key. -/
def removeJob (rs : RedisState) (userId jobId : String) :
    Except PyErr RedisJob × RedisState :=
  match rs.store.find? (fun j => j.jobId == jobId) with
  | none => (.error .notFoundJob, rs)
  | some cfg =>
    if cfg.userId ≠ userId ∧ userId ∉ superuserIds then
      (.error .forbiddenModify, rs)
    else
      (.ok cfg, ⟨rs.store.filter (fun j => decide (j.jobId ≠ jobId)),
        rs.fsDirs⟩)

/-- `JobConfig.load_job`: `Job not found` for an unknown id; when the
backing directory is gone it purges the entry through `remove_job` (whose
ownership check may itself raise `Forbidden`) and raises `Job not found`;
otherwise a non-owning, non-superuser caller gets `Forbidden`. -/
def loadJob (rs : RedisState) (jobId userId : String) :
    Except PyErr RedisJob × RedisState :=
  match rs.store.find? (fun j => j.jobId == jobId) with
  | none => (.error .notFoundJob, rs)
  | some cfg =>
    if cfg.jobDir ∉ rs.fsDirs then
      match removeJob rs userId jobId with
      | (.error e, rs1) => (.error e, rs1)
      | (.ok _, rs1) => (.error .notFoundJob, rs1)
    else if cfg.userId ≠ userId ∧ userId ∉ superuserIds then
      (.error .forbiddenAccess, rs)
    else (.ok cfg, rs)

/-- A request for the submit flow that misses the required `match_group`
field. -/
def c6BadRequest : List (String × RVal) :=
  [("name", .str "test run"), ("user_id", .str "alice"),
   ("token", .str "tok")]

/-- A well-formed request for the submit flow. -/
def c9GoodRequest : List (String × RVal) :=
  [("name", .str "run1"), ("match_group", .str "grp"),
   ("user_id", .str "alice"), ("token", .str "secret")]

/-- The `Initialized` config that `_prepare_config` writes for
`c9GoodRequest` under job id `"abcde"` and working dir `"/wd"`. -/
def c9InitConfig : List (String × RVal) :=
  [("name", .str "run1"), ("match_group", .str "grp"),
   ("user_id", .str "alice"), ("job_id", .str "abcde"),
   ("job_dir", .str "/wd/abcde"), ("cdate", .nat 5), ("mdate", .nat 5),
   ("status", .str "Initialized"),
   ("description", .str "Server received config and allocated space")]

/-- A service state whose index still lists a job whose directory is
gone. -/
def c7StaleState : ServiceState := ⟨[], [("alice", ["job1"])]⟩

/-- A Redis state holding a live job owned by `"alice"`. -/
def c7RedisState : RedisState := ⟨[⟨"job2", "alice", "dir2"⟩], ["dir2"]⟩

/-- A Redis state holding a job owned by `"alice"` whose directory is
gone. -/
def c7RedisStale : RedisState := ⟨[⟨"job3", "alice", "dir3"⟩], []⟩

/-- A well-formed request for the new-API validator. -/
def c6GoodAPIRequest : List (String × RVal) :=
  [("name", .str "test"),
   ("entityA", .obj [("type", .str "Group"), ("memberOf", .str "g1")]),
   ("entityB", .obj [("type", .str "Note"), ("invitation", .str "inv1")])]

theorem noId_of_headRun_of_ne {f : ScoreEntry → String} {x : String}
    {e : ScoreEntry} {rest : List ScoreEntry}
    (h : HeadRun f x (e :: rest)) (hne : f e ≠ x) : NoId f x (e :: rest) := by
  rcases h with ⟨hx, _⟩ | hno
  · exact absurd hx hne
  · exact hno

/-- Membership in the accumulator is preserved by the helper loop. -/
theorem mem_sparseHelperLoop_of_mem_acc (f : ScoreEntry → String) (k : ℕ)
    (l : List ScoreEntry) (c : ℕ) (cur : String) (acc : Finset ScoreEntry)
    {e : ScoreEntry} (he : e ∈ acc) :
    e ∈ sparseHelperLoop f k l c cur acc := by
  induction l generalizing c cur acc with
  | nil => simpa [sparseHelperLoop] using he
  | cons a rest ih =>
    simp only [sparseHelperLoop]
    split
    · exact ih _ _ _ (Finset.mem_insert_of_mem he)
    · split
      · exact ih _ _ _ (Finset.mem_insert_of_mem he)
      · exact ih _ _ _ he

/-- Membership in a shorter take implies membership in a longer take. -/
theorem mem_take_of_le {α : Type} {m n : ℕ} {l : List α} {e : α}
    (hmn : m ≤ n) (h : e ∈ l.take m) : e ∈ l.take n := by
  have h1 : l.take m = (l.take n).take m := by
    rw [List.take_take, Nat.min_eq_left hmn]
  rw [h1] at h
  exact List.take_subset m _ h

/-- Membership in the take of a cons splits into the head or the shorter
take of the tail. -/
theorem mem_take_cons {α : Type} {a e : α} {l : List α} {k : ℕ}
    (h : e ∈ (a :: l).take k) : 0 < k ∧ (e = a ∨ e ∈ l.take (k - 1)) := by
  cases k with
  | zero => simp at h
  | succ m =>
    rw [List.take_succ_cons] at h
    rcases List.mem_cons.mp h with rfl | h'
    · exact ⟨Nat.succ_pos m, Or.inl rfl⟩
    · exact ⟨Nat.succ_pos m, Or.inr (by simpa using h')⟩

/-- When the tracked id is `x` and the occurrences of `x` form a head run,
every entry among the first `k - c` of that run is inserted by the loop. -/
theorem mem_sparseHelperLoop_headRun (f : ScoreEntry → String) (k : ℕ) :
    ∀ (l : List ScoreEntry) (c : ℕ) (acc : Finset ScoreEntry) (x : String)
      (e : ScoreEntry), HeadRun f x l →
      e ∈ (l.filter (fun e' => f e' == x)).take (k - c) →
      e ∈ sparseHelperLoop f k l c x acc := by
  intro l
  induction l with
  | nil => intro c acc x e _ he; simp at he
  | cons a rest ih =>
    intro c acc x e hrun he
    by_cases hfa : f a = x
    · rcases hrun with ⟨_, hrest⟩ | hno
      · rw [List.filter_cons_of_pos (by simpa using hfa)] at he
        obtain ⟨hpos, hmem⟩ := mem_take_cons he
        have hck : c < k := by omega
        simp only [sparseHelperLoop, if_pos hck]
        rcases hmem with rfl | he'
        · exact mem_sparseHelperLoop_of_mem_acc f k rest (c + 1) x _
            (Finset.mem_insert_self e acc)
        · have heq : k - c - 1 = k - (c + 1) := by omega
          rw [heq] at he'
          exact ih (c + 1) _ x e hrest he'
      · exact absurd hfa (hno a (List.mem_cons_self a rest))
    · have hno : NoId f x (a :: rest) := noId_of_headRun_of_ne hrun hfa
      have hfil : (a :: rest).filter (fun e' => f e' == x) = [] := by
        apply List.filter_eq_nil_iff.mpr
        intro b hb
        simpa using hno b hb
      rw [hfil] at he
      simp at he

/-- Any entry among the first `k` of the run of `x` is inserted, provided the
tracked id differs from `x` and the occurrences of `x` in the walked list
are contiguous. -/
theorem mem_sparseHelperLoop_contig (f : ScoreEntry → String) (k : ℕ) :
    ∀ (l : List ScoreEntry) (c : ℕ) (cur : String) (acc : Finset ScoreEntry)
      (x : String) (e : ScoreEntry), ContigId f x l → cur ≠ x →
      e ∈ (l.filter (fun e' => f e' == x)).take k →
      e ∈ sparseHelperLoop f k l c cur acc := by
  intro l
  induction l with
  | nil => intro c cur acc x e _ _ he; simp at he
  | cons a rest ih =>
    intro c cur acc x e hcontig hcur he
    obtain ⟨hhead, hrest⟩ := hcontig
    by_cases hfa : f a = x
    · rw [List.filter_cons_of_pos (by simpa using hfa)] at he
      obtain ⟨hkpos, hmem⟩ := mem_take_cons he
      by_cases hck : c < k
      · simp only [sparseHelperLoop, if_pos hck]
        rcases hmem with rfl | he'
        · exact mem_sparseHelperLoop_of_mem_acc f k rest (c + 1) cur _
            (Finset.mem_insert_self e acc)
        · exact ih (c + 1) cur _ x e hrest hcur (mem_take_of_le (Nat.sub_le k 1) he')
      · have hne : f a ≠ cur := fun h => hcur (by rw [← h, hfa])
        simp only [sparseHelperLoop, if_neg hck, if_pos hne]
        rcases hmem with rfl | he'
        · exact mem_sparseHelperLoop_of_mem_acc f k rest 1 (f e) _
            (Finset.mem_insert_self e acc)
        · have hh := mem_sparseHelperLoop_headRun f k rest 1 (insert a acc) x e
            (hhead hfa) he'
          rw [hfa]
          exact hh
    · rw [List.filter_cons_of_neg (by simpa using hfa)] at he
      simp only [sparseHelperLoop]
      split
      · exact ih (c + 1) cur _ x e hrest hcur he
      · split
        · exact ih 1 (f a) _ x e hrest hfa he
        · exact ih (c + 1) cur _ x e hrest hcur he

/-- A list bounded above by `x` (under `f`) and pairwise ordered has its
`x`-entries as a head run. -/
theorem headRun_of_bounded (f : ScoreEntry → String)
    (R : ScoreEntry → ScoreEntry → Prop)
    (hmono : ∀ a b, R a b → f b ≤ f a) (x : String) :
    ∀ l : List ScoreEntry, (∀ b ∈ l, f b ≤ x) → l.Pairwise R → HeadRun f x l := by
  intro l
  induction l with
  | nil => intro _ _; trivial
  | cons a rest ih =>
    intro hb hp
    rcases List.pairwise_cons.mp hp with ⟨hhead, hrest⟩
    by_cases hfa : f a = x
    · exact Or.inl ⟨hfa,
        ih (fun b hbm => (hmono a b (hhead b hbm)).trans (le_of_eq hfa)) hrest⟩
    · refine Or.inr ?_
      intro e hem
      rcases List.mem_cons.mp hem with rfl | hem'
      · exact hfa
      · intro hex
        have h1 : f e ≤ f a := hmono a e (hhead e hem')
        have h2 : f a ≤ x := hb a (List.mem_cons_self a rest)
        exact hfa (le_antisymm h2 (hex ▸ h1))

/-- A pairwise-ordered list (for any relation that is monotone in the id
projection) keeps equal ids contiguous. -/
theorem contigId_of_pairwise (f : ScoreEntry → String)
    (R : ScoreEntry → ScoreEntry → Prop)
    (hmono : ∀ a b, R a b → f b ≤ f a) (x : String) :
    ∀ l : List ScoreEntry, l.Pairwise R → ContigId f x l := by
  intro l
  induction l with
  | nil => intro _; trivial
  | cons a rest ih =>
    intro hp
    rcases List.pairwise_cons.mp hp with ⟨hhead, hrest⟩
    refine ⟨fun hfa => ?_, ih hrest⟩
    exact headRun_of_bounded f R hmono x rest
      (fun b hb => (hmono a b (hhead b hb)).trans (le_of_eq hfa)) hrest

theorem noteKeyLe_mono : ∀ a b, noteKeyLe a b → b.noteId ≤ a.noteId := by
  intro a b h
  rcases h with h | ⟨h, _⟩
  · exact le_of_lt h
  · exact le_of_eq h

theorem profileKeyLe_mono : ∀ a b, profileKeyLe a b → b.profileId ≤ a.profileId := by
  intro a b h
  rcases h with h | ⟨h, _⟩
  · exact le_of_lt h
  · exact le_of_eq h

/-- One pass of the helper over a nonempty pairwise-ordered list inserts
every entry of the first `k` of each id run. -/
theorem sparseHelperLoop_superset (f : ScoreEntry → String)
    (R : ScoreEntry → ScoreEntry → Prop)
    (hmono : ∀ a b, R a b → f b ≤ f a) (k : ℕ)
    (a : ScoreEntry) (rest : List ScoreEntry)
    (hp : (a :: rest).Pairwise R)
    (acc : Finset ScoreEntry) (x : String) (e : ScoreEntry)
    (he : e ∈ ((a :: rest).filter (fun e' => f e' == x)).take k) :
    e ∈ sparseHelperLoop f k (a :: rest) 0 (f a) acc := by
  by_cases hx : f a = x
  · have hbound : ∀ b ∈ a :: rest, f b ≤ f a := by
      intro b hb
      rcases List.mem_cons.mp hb with rfl | hb'
      · exact le_refl _
      · exact hmono a b ((List.pairwise_cons.mp hp).1 b hb')
    have hrun : HeadRun f x (a :: rest) :=
      headRun_of_bounded f R hmono x (a :: rest)
        (fun b hb => (hbound b hb).trans (le_of_eq hx)) hp
    have : e ∈ ((a :: rest).filter (fun e' => f e' == x)).take (k - 0) := by
      simpa using he
    have h3 := mem_sparseHelperLoop_headRun f k (a :: rest) 0 acc x e hrun this
    rw [hx]
    exact h3
  · exact mem_sparseHelperLoop_contig f k (a :: rest) 0 (f a) acc x e
      (contigId_of_pairwise f R hmono x _ hp) hx he

/-- C1: sparsification is a superset operation.  Whenever `sparse_scores`
returns a result set, the top-`k` entries of every note (ranked by
descending score, ties broken by scan order) and the top-`k` entries of
every profile are members of the returned set. -/
theorem sparse_scores_superset_topK
    (prelim : List ScoreEntry) (k : ℕ) (out : Finset ScoreEntry)
    (hok : sparseScoresOf prelim k = .ok out) :
    (∀ n e, e ∈ topKByNote prelim k n → e ∈ out) ∧
    (∀ pid e, e ∈ topKByProfile prelim k pid → e ∈ out) := by
  have hsort1 : (sortByNoteDesc prelim).Pairwise noteKeyLe :=
    List.sorted_insertionSort noteKeyLe prelim
  have hsort2 : (sortByProfileDesc (sortByNoteDesc prelim)).Pairwise profileKeyLe :=
    List.sorted_insertionSort profileKeyLe _
  unfold sparseScoresOf at hok
  rcases h1ev : sortByNoteDesc prelim with _ | ⟨a1, r1⟩
  · rw [h1ev] at hok
    simp [sparseScoresHelper, Bind.bind, Except.bind] at hok
  · rw [h1ev] at hok
    rcases h2ev : sortByProfileDesc (a1 :: r1) with _ | ⟨a2, r2⟩
    · have hlen := List.length_insertionSort profileKeyLe (a1 :: r1)
      rw [show List.insertionSort profileKeyLe (a1 :: r1) = sortByProfileDesc (a1 :: r1) from rfl,
        h2ev] at hlen
      simp at hlen
    · rw [h2ev] at hok
      simp only [sparseScoresHelper, Bind.bind, Except.bind, pure, Except.pure] at hok
      have hout : out = sparseHelperLoop ScoreEntry.profileId k (a2 :: r2) 0
          (a2.profileId) (sparseHelperLoop ScoreEntry.noteId k (a1 :: r1) 0
            (a1.noteId) ∅) := by
        exact (Except.ok.injEq _ _).mp hok.symm
      rw [h1ev] at hsort1
      rw [h1ev, h2ev] at hsort2
      constructor
      · intro n e he
        unfold topKByNote at he
        rw [h1ev] at he
        have hs1 : e ∈ sparseHelperLoop ScoreEntry.noteId k (a1 :: r1) 0
            (a1.noteId) ∅ :=
          sparseHelperLoop_superset ScoreEntry.noteId noteKeyLe noteKeyLe_mono
            k a1 r1 hsort1 ∅ n e he
        rw [hout]
        exact mem_sparseHelperLoop_of_mem_acc ScoreEntry.profileId k _ 0 _ _ hs1
      · intro pid e he
        unfold topKByProfile at he
        rw [h1ev, h2ev] at he
        rw [hout]
        exact sparseHelperLoop_superset ScoreEntry.profileId profileKeyLe
          profileKeyLe_mono k a2 r2 hsort2 _ pid e he

/-- On any nonempty preliminary list, `sparse_scores` returns normally. -/
theorem sparseScoresOf_ok_of_ne_nil (prelim : List ScoreEntry) (k : ℕ)
    (hne : prelim ≠ []) : ∃ s, sparseScoresOf prelim k = .ok s := by
  unfold sparseScoresOf
  rcases h1ev : sortByNoteDesc prelim with _ | ⟨a1, r1⟩
  · exfalso
    have hlen := List.length_insertionSort noteKeyLe prelim
    rw [show List.insertionSort noteKeyLe prelim = sortByNoteDesc prelim from rfl,
      h1ev] at hlen
    exact hne (List.length_eq_zero.mp hlen.symm)
  · rcases h2ev : sortByProfileDesc (a1 :: r1) with _ | ⟨a2, r2⟩
    · exfalso
      have hlen := List.length_insertionSort profileKeyLe (a1 :: r1)
      rw [show List.insertionSort profileKeyLe (a1 :: r1) =
          sortByProfileDesc (a1 :: r1) from rfl, h2ev] at hlen
      simp at hlen
    · exact ⟨_, rfl⟩

theorem sparse_scores_superset_topK_witness :
    sparseScoresOf [⟨"a", "p", 1⟩] 1 = .ok {⟨"a", "p", 1⟩} ∧
    (⟨"a", "p", 1⟩ : ScoreEntry) ∈ ({⟨"a", "p", 1⟩} : Finset ScoreEntry) :=
  ⟨by decide,
    (sparse_scores_superset_topK [⟨"a", "p", 1⟩] 1 {⟨"a", "p", 1⟩}
      (by decide)).1 "a" ⟨"a", "p", 1⟩ (by decide)⟩

/-- C8: calling `sparse_scores` before `all_scores` has run (the
preliminary-score state still `None`) raises the not-ready `RuntimeError`
and never returns a result set. -/
theorem sparse_scores_not_ready (p : Specter2Predictor)
    (h : p.preliminaryScores = none) :
    p.sparseScores = .error .runtimeNotReady ∧
    ∀ s : Finset ScoreEntry, p.sparseScores ≠ .ok s := by
  unfold Specter2Predictor.sparseScores
  rw [h]
  exact ⟨rfl, fun s hs => by cases hs⟩

theorem sparse_scores_not_ready_witness :
    Specter2Predictor.sparseScores ⟨false, true, 2, none⟩ =
      .error .runtimeNotReady :=
  (sparse_scores_not_ready ⟨false, true, 2, none⟩ rfl).1

/-- C10: with an empty (but set) preliminary-score list, `sparse_scores`
fails with the `IndexError` coming from `self.preliminary_scores[0]` in
`_sparse_scores_helper`; with a nonempty list it returns normally. -/
theorem sparse_scores_empty_index_error (p : Specter2Predictor)
    (hempty : p.preliminaryScores = some []) :
    p.sparseScores = .error .indexOutOfRange ∧
    ∀ q : Specter2Predictor, ∀ prelim, q.preliminaryScores = some prelim →
      prelim ≠ [] → ∃ s, q.sparseScores = .ok s := by
  constructor
  · unfold Specter2Predictor.sparseScores
    rw [hempty]
    rfl
  · intro q prelim hq hne
    simp only [Specter2Predictor.sparseScores, hq]
    exact sparseScoresOf_ok_of_ne_nil prelim q.sparseValue hne

theorem sparse_scores_empty_index_error_witness :
    Specter2Predictor.sparseScores ⟨false, true, 2, some []⟩ =
      .error .indexOutOfRange :=
  (sparse_scores_empty_index_error ⟨false, true, 2, some []⟩ rfl).1

/-! ### How many entries one id run can emit in a single pass (claim C2) -/

/-- A walk over a list without `x`-entries leaves the `x`-entries of the
accumulated set unchanged. -/
theorem filter_sparseHelperLoop_noId (f : ScoreEntry → String) (k : ℕ)
    (x : String) :
    ∀ (l : List ScoreEntry) (c : ℕ) (cur : String) (acc : Finset ScoreEntry),
      NoId f x l →
      (sparseHelperLoop f k l c cur acc).filter (fun e => f e = x) =
        acc.filter (fun e => f e = x) := by
  intro l
  induction l with
  | nil => intro c cur acc _; rfl
  | cons a rest ih =>
    intro c cur acc hno
    have hfa : ¬ (f a = x) := hno a (List.mem_cons_self a rest)
    have hrest : NoId f x rest := fun e he => hno e (List.mem_cons_of_mem a he)
    have hins : ∀ s : Finset ScoreEntry,
        (insert a s).filter (fun e => f e = x) = s.filter (fun e => f e = x) := by
      intro s
      rw [Finset.filter_insert, if_neg hfa]
    simp only [sparseHelperLoop]
    split
    · rw [ih _ _ _ hrest, hins]
    · split
      · rw [ih _ _ _ hrest, hins]
      · rw [ih _ _ _ hrest]

/-- With tracked id `x` and the `x`-entries forming a head run, a pass can
add at most `k - c` further `x`-entries. -/
theorem card_sparseHelperLoop_headRun (f : ScoreEntry → String) (k : ℕ)
    (x : String) :
    ∀ (l : List ScoreEntry) (c : ℕ) (acc : Finset ScoreEntry), HeadRun f x l →
      ((sparseHelperLoop f k l c x acc).filter (fun e => f e = x)).card ≤
        (acc.filter (fun e => f e = x)).card + (k - c) := by
  intro l
  induction l with
  | nil => intro c acc _; simp [sparseHelperLoop]
  | cons a rest ih =>
    intro c acc hrun
    rcases hrun with ⟨hfa, hrest⟩ | hno
    · by_cases hck : c < k
      · simp only [sparseHelperLoop, if_pos hck]
        have h1 := ih (c + 1) (insert a acc) hrest
        have h2 : ((insert a acc).filter (fun e => f e = x)).card ≤
            (acc.filter (fun e => f e = x)).card + 1 := by
          rw [Finset.filter_insert, if_pos hfa]
          exact Finset.card_insert_le _ _
        omega
      · simp only [sparseHelperLoop, if_neg hck, if_neg (fun h : f a ≠ x => h hfa)]
        have h1 := ih (c + 1) acc hrest
        omega
    · rw [filter_sparseHelperLoop_noId f k x _ c x acc hno]
      exact Nat.le_add_right _ _

/-- With a foreign tracked id and the `x`-entries forming a head run, a
pass can add at most `(k - c) + 1 + (k - 1)` `x`-entries: up to `k - c`
before the counter reaches `k`, one at the reset, and up to `k - 1`
afterwards. -/
theorem card_sparseHelperLoop_headRun_ne (f : ScoreEntry → String) (k : ℕ)
    (x : String) :
    ∀ (l : List ScoreEntry) (c : ℕ) (cur : String) (acc : Finset ScoreEntry),
      HeadRun f x l → cur ≠ x →
      ((sparseHelperLoop f k l c cur acc).filter (fun e => f e = x)).card ≤
        (acc.filter (fun e => f e = x)).card + ((k - c) + 1 + (k - 1)) := by
  intro l
  induction l with
  | nil => intro c cur acc _ _; simp [sparseHelperLoop]
  | cons a rest ih =>
    intro c cur acc hrun hcur
    rcases hrun with ⟨hfa, hrest⟩ | hno
    · have hne : f a ≠ cur := fun h => hcur (by rw [← h, hfa])
      by_cases hck : c < k
      · simp only [sparseHelperLoop, if_pos hck]
        have h1 := ih (c + 1) cur (insert a acc) hrest hcur
        have h2 : ((insert a acc).filter (fun e => f e = x)).card ≤
            (acc.filter (fun e => f e = x)).card + 1 := by
          rw [Finset.filter_insert, if_pos hfa]
          exact Finset.card_insert_le _ _
        omega
      · simp only [sparseHelperLoop, if_neg hck, if_pos hne]
        have h1 := card_sparseHelperLoop_headRun f k x rest 1 (insert a acc) hrest
        rw [hfa]
        have h2 : ((insert a acc).filter (fun e => f e = x)).card ≤
            (acc.filter (fun e => f e = x)).card + 1 := by
          rw [Finset.filter_insert, if_pos hfa]
          exact Finset.card_insert_le _ _
        omega
    · rw [filter_sparseHelperLoop_noId f k x _ c cur acc hno]
      exact Nat.le_add_right _ _

/-- With a foreign tracked id, a counter of at least one, and contiguous
`x`-entries, a pass can add at most `max 1 (2k - 1)` `x`-entries. -/
theorem card_sparseHelperLoop_contig (f : ScoreEntry → String) (k : ℕ)
    (x : String) :
    ∀ (l : List ScoreEntry) (c : ℕ) (cur : String) (acc : Finset ScoreEntry),
      ContigId f x l → cur ≠ x → 1 ≤ c →
      ((sparseHelperLoop f k l c cur acc).filter (fun e => f e = x)).card ≤
        (acc.filter (fun e => f e = x)).card + max 1 (2 * k - 1) := by
  intro l
  induction l with
  | nil => intro c cur acc _ _ _; simp [sparseHelperLoop]
  | cons a rest ih =>
    intro c cur acc hcontig hcur hc
    obtain ⟨hhead, hrest⟩ := hcontig
    by_cases hfa : f a = x
    · have hne : f a ≠ cur := fun h => hcur (by rw [← h, hfa])
      by_cases hck : c < k
      · simp only [sparseHelperLoop, if_pos hck]
        have h1 := card_sparseHelperLoop_headRun_ne f k x rest (c + 1) cur
          (insert a acc) (hhead hfa) hcur
        have h2 : ((insert a acc).filter (fun e => f e = x)).card ≤
            (acc.filter (fun e => f e = x)).card + 1 := by
          rw [Finset.filter_insert, if_pos hfa]
          exact Finset.card_insert_le _ _
        omega
      · simp only [sparseHelperLoop, if_neg hck, if_pos hne]
        have h1 := card_sparseHelperLoop_headRun f k x rest 1 (insert a acc)
          (hhead hfa)
        rw [hfa]
        have h2 : ((insert a acc).filter (fun e => f e = x)).card ≤
            (acc.filter (fun e => f e = x)).card + 1 := by
          rw [Finset.filter_insert, if_pos hfa]
          exact Finset.card_insert_le _ _
        omega
    · have hins : ∀ s : Finset ScoreEntry,
          (insert a s).filter (fun e => f e = x) = s.filter (fun e => f e = x) := by
        intro s
        rw [Finset.filter_insert, if_neg hfa]
      simp only [sparseHelperLoop]
      split
      · have h1 := ih (c + 1) cur (insert a acc) hrest hcur (by omega)
        rw [hins] at h1
        exact h1
      · split
        · have h1 := ih 1 (f a) (insert a acc) hrest hfa (le_refl 1)
          rw [hins] at h1
          exact h1
        · exact ih (c + 1) cur acc hrest hcur (by omega)

/-- C2 (amended): a helper pass over a list sorted descending by
`(id, score)` emits an entry exactly when the running counter is below
`sparse_value`, or when the entry's id differs from the tracked id while
the counter has reached `sparse_value`; the counter and the tracked id are
reset only in the latter case, not at every id boundary.  Consequently a
single id run can emit up to `max 1 (2k - 1)` entries in one pass (not
`k + 1`). -/
theorem sparse_pass_run_bound (f : ScoreEntry → String)
    (R : ScoreEntry → ScoreEntry → Prop)
    (hmono : ∀ a b, R a b → f b ≤ f a) (k : ℕ) (l : List ScoreEntry)
    (hsort : l.Pairwise R) (s : Finset ScoreEntry)
    (hok : sparseScoresHelper f k l ∅ = .ok s) (x : String) :
    (s.filter (fun e => f e = x)).card ≤ max 1 (2 * k - 1) := by
  cases l with
  | nil => simp [sparseScoresHelper] at hok
  | cons a rest =>
    have hs : s = sparseHelperLoop f k (a :: rest) 0 (f a) ∅ :=
      ((Except.ok.injEq _ _).mp hok).symm
    subst hs
    by_cases hx : f a = x
    · have hbound : ∀ b ∈ a :: rest, f b ≤ x := by
        intro b hb
        rcases List.mem_cons.mp hb with rfl | hb'
        · exact le_of_eq hx
        · exact (hmono a b ((List.pairwise_cons.mp hsort).1 b hb')).trans
            (le_of_eq hx)
      have hrun : HeadRun f x (a :: rest) :=
        headRun_of_bounded f R hmono x (a :: rest) hbound hsort
      have h1 := card_sparseHelperLoop_headRun f k x (a :: rest) 0 ∅ hrun
      rw [hx]
      simp only [Finset.filter_empty, Finset.card_empty, Nat.zero_add] at h1
      omega
    · have hcontig : ContigId f x rest :=
        (contigId_of_pairwise f R hmono x _ hsort).2
      by_cases hck : 0 < k
      · simp only [sparseHelperLoop, if_pos hck, Nat.zero_add]
        have h1 := card_sparseHelperLoop_contig f k x rest 1 (f a)
          (insert a ∅) hcontig hx (le_refl 1)
        have h2 : ((insert a (∅ : Finset ScoreEntry)).filter
            (fun e => f e = x)).card = 0 := by
          rw [Finset.filter_insert, if_neg hx]
          simp
        omega
      · simp only [sparseHelperLoop, if_neg hck,
          if_neg (fun h : f a ≠ f a => h rfl), Nat.zero_add]
        have h1 := card_sparseHelperLoop_contig f k x rest 1 (f a) ∅
          hcontig hx (le_refl 1)
        simp only [Finset.filter_empty, Finset.card_empty, Nat.zero_add] at h1
        omega

theorem sparse_pass_run_bound_witness :
    List.Pairwise noteKeyLe c2NotePassList ∧
    ((sparseHelperLoop ScoreEntry.noteId 3 c2NotePassList 0 "b" ∅).filter
      (fun e => e.noteId = "a")).card ≤ max 1 (2 * 3 - 1) :=
  ⟨by
      have hab : (['a'] : List Char) < ['b'] := by decide
      simp [c2NotePassList, noteKeyLe, hab]
      norm_num,
    sparse_pass_run_bound ScoreEntry.noteId noteKeyLe noteKeyLe_mono 3
      c2NotePassList (by
      have hab : (['a'] : List Char) < ['b'] := by decide
      simp [c2NotePassList, noteKeyLe, hab]
      norm_num) _ rfl "a"⟩

/-- C2 counterexample: on a concrete list sorted descending by
`(note_id, score)` with `sparse_value = 3`, a single helper pass emits
five entries of the note-`"a"` run — strictly more than `k + 1 = 4` — so
the pass does not reset the counter at every note boundary and does not
emit exactly the first-`k`-positions-or-boundary entries. -/
theorem sparse_pass_emits_more_than_k_plus_one :
    List.Pairwise noteKeyLe c2NotePassList ∧
    sparseScoresHelper ScoreEntry.noteId 3 c2NotePassList ∅ =
      .ok (sparseHelperLoop ScoreEntry.noteId 3 c2NotePassList 0 "b" ∅) ∧
    3 + 1 <
      ((sparseHelperLoop ScoreEntry.noteId 3 c2NotePassList 0 "b" ∅).filter
        (fun e => e.noteId = "a")).card :=
  ⟨by
      have hab : (['a'] : List Char) < ['b'] := by decide
      simp [c2NotePassList, noteKeyLe, hab]
      norm_num, rfl, by decide⟩

/-! ### Bad ids and aggregation (claims C3, C4, C5) -/

/-- When every publication of a reviewer is a bad id, the
`train_paper_idx` loop produces the empty index list. -/
theorem collectTrainIdx_all_bad (trainIds : List String)
    (trainBad : Finset String) :
    ∀ pubs : List String, (∀ p ∈ pubs, p ∈ trainBad) →
      collectTrainIdx trainIds trainBad pubs = .ok [] := by
  intro pubs
  induction pubs with
  | nil => intro _; rfl
  | cons p rest ih =>
    intro hbad
    unfold collectTrainIdx
    rw [if_pos (hbad p (List.mem_cons_self p rest))]
    exact ih (fun q hq => hbad q (List.mem_cons_of_mem p hq))

/-- Zipping a list with a constant list of the same length and projecting
into score entries is a plain map. -/
theorem zip_replicate_entry_map (rid : String) (c : TorchVal) :
    ∀ l : List String,
      ((l.zip (List.replicate l.length c)).map
        (fun p => (⟨p.1, rid, p.2⟩ : RawScoreEntry))) =
      l.map (fun t => ⟨t, rid, c⟩) := by
  intro l
  induction l with
  | nil => rfl
  | cons a t ih => simp only [List.length_cons, List.replicate_succ,
      List.zip_cons_cons, List.map_cons, ih]

/-- Characterisation of one reviewer-loop iteration once the collected
index list is known. -/
theorem reviewerScoreEntries_eq (avg mx : Bool) (aff : ℕ → ℕ → ℚ)
    (testIds trainIds : List String) (trainBad : Finset String)
    (rid : String) (pubs : List String) (idxs : List ℕ)
    (hlen : ¬ pubs.length = 0)
    (hcoll : collectTrainIdx trainIds trainBad pubs = .ok idxs) :
    reviewerScoreEntries avg mx aff testIds trainIds trainBad rid pubs =
      match allPaperAff avg mx aff idxs testIds.length with
      | .error e => .error e
      | .ok vals =>
        .ok ((testIds.zip vals).map
          (fun p => (⟨p.1, rid, p.2⟩ : RawScoreEntry))) := by
  unfold reviewerScoreEntries
  rw [if_neg hlen, hcoll]

/-- C3 (amended): the reviewer loop skips only reviewers whose publication
list is empty.  A reviewer with a nonempty publication list all of whose
publications are bad ids is not skipped: under average aggregation it
receives a NaN-scored entry for every cached submission, and under max
aggregation the `torch.max` call raises. -/
theorem all_bad_reviewer_not_skipped (aff : ℕ → ℕ → ℚ)
    (testIds trainIds : List String) (trainBad : Finset String)
    (rid : String) (pubs : List String) (hne : pubs ≠ [])
    (hbad : ∀ p ∈ pubs, p ∈ trainBad) :
    reviewerScoreEntries true false aff testIds trainIds trainBad rid [] =
      .ok [] ∧
    reviewerScoreEntries true false aff testIds trainIds trainBad rid pubs =
      .ok (testIds.map (fun t => ⟨t, rid, .nan⟩)) ∧
    reviewerScoreEntries false true aff testIds trainIds trainBad rid pubs =
      .error .dimMaxEmpty := by
  have hlen0 : ¬ pubs.length = 0 := fun h => hne (List.length_eq_zero.mp h)
  have hcoll := collectTrainIdx_all_bad trainIds trainBad pubs hbad
  refine ⟨rfl, ?_, ?_⟩
  · rw [reviewerScoreEntries_eq true false aff testIds trainIds trainBad rid
      pubs [] hlen0 hcoll]
    have haff : allPaperAff true false aff [] testIds.length =
        .ok (List.replicate testIds.length TorchVal.nan) := by
      simp [allPaperAff, torchMeanDim1, List.map_const', List.length_range]
    rw [haff]
    show Except.ok ((testIds.zip (List.replicate testIds.length
      TorchVal.nan)).map (fun p => (⟨p.1, rid, p.2⟩ : RawScoreEntry))) = _
    rw [zip_replicate_entry_map]
  · rw [reviewerScoreEntries_eq false true aff testIds trainIds trainBad rid
      pubs [] hlen0 hcoll]
    have haff : allPaperAff false true aff [] testIds.length =
        .error .dimMaxEmpty := by
      simp [allPaperAff]
    rw [haff]

theorem all_bad_reviewer_not_skipped_witness :
    (["p1"] : List String) ≠ [] ∧
    (∀ p ∈ (["p1"] : List String), p ∈ ({"p1"} : Finset String)) ∧
    reviewerScoreEntries true false (fun _ _ => 0) ["s1"] ["p1"] {"p1"}
      "rev1" ["p1"] = .ok [⟨"s1", "rev1", .nan⟩] ∧
    reviewerScoreEntries false true (fun _ _ => 0) ["s1"] ["p1"] {"p1"}
      "rev1" ["p1"] = .error .dimMaxEmpty := by
  refine ⟨by decide, by decide, ?_, ?_⟩
  · exact (all_bad_reviewer_not_skipped (fun _ _ => 0) ["s1"] ["p1"] {"p1"}
      "rev1" ["p1"] (by decide) (by decide)).2.1
  · exact (all_bad_reviewer_not_skipped (fun _ _ => 0) ["s1"] ["p1"] {"p1"}
      "rev1" ["p1"] (by decide) (by decide)).2.2

set_option maxRecDepth 8000 in
/-- C3 counterexample: a reviewer whose single publication has no
embedding (a bad id) still produces a score entry — with NaN value — in
the output of `all_scores` under average aggregation, refuting the claim
that such a reviewer is skipped entirely. -/
theorem all_scores_emits_entry_for_all_bad_reviewer :
    allScoresCompute (fun _ => 1) [⟨"p1", []⟩]
      [⟨"s1", List.replicate 768 1⟩] [("rev1", ["p1"])] true false =
      .ok [⟨"s1", "rev1", .nan⟩] ∧
    loadEmbFile [⟨"p1", []⟩] =
      .ok ⟨["p1"], [List.replicate 768 0], {"p1"}⟩ := by
  constructor
  · rfl
  · rfl

/-- Every record with an empty embedding ends up in the bad-id set of
`load_emb_file`. -/
theorem loadEmbFile_bad_mem :
    ∀ (recs : List EmbeddingRecord) (out : LoadedEmb),
      loadEmbFile recs = .ok out → ∀ r ∈ recs, r.embedding.length = 0 →
      r.paperId ∈ out.badIdSet := by
  intro recs
  induction recs with
  | nil => intro out _ r hr; simp at hr
  | cons a rest ih =>
    intro out hok r hr hlen
    unfold loadEmbFile at hok
    by_cases ha : a.embedding.length = 0
    · rw [if_pos ha] at hok
      cases hrec : loadEmbFile rest with
      | error e => rw [hrec] at hok; cases hok
      | ok l =>
        rw [hrec] at hok
        have hout : out = ⟨a.paperId :: l.idList,
            List.replicate paperEmbSizeDefault 0 :: l.embList,
            insert a.paperId l.badIdSet⟩ := ((Except.ok.injEq _ _).mp hok).symm
        subst hout
        rcases List.mem_cons.mp hr with rfl | hr'
        · exact Finset.mem_insert_self _ _
        · exact Finset.mem_insert_of_mem (ih l hrec r hr' hlen)
    · rw [if_neg ha] at hok
      by_cases ha2 : a.embedding.length = paperEmbSizeDefault
      · rw [if_pos ha2] at hok
        cases hrec : loadEmbFile rest with
        | error e => rw [hrec] at hok; cases hok
        | ok l =>
          rw [hrec] at hok
          have hout : out = ⟨a.paperId :: l.idList, a.embedding :: l.embList,
              l.badIdSet⟩ := ((Except.ok.injEq _ _).mp hok).symm
          subst hout
          rcases List.mem_cons.mp hr with rfl | hr'
          · exact absurd hlen ha
          · exact ih l hrec r hr' hlen
      · rw [if_neg ha2] at hok
        cases hok

/-- The `train_paper_idx` loop ignores bad publications entirely:
filtering them out of the publication list first gives the same result. -/
theorem collectTrainIdx_filter_bad (trainIds : List String)
    (trainBad : Finset String) :
    ∀ pubs : List String, collectTrainIdx trainIds trainBad pubs =
      collectTrainIdx trainIds trainBad
        (pubs.filter (fun p => decide (p ∉ trainBad))) := by
  intro pubs
  induction pubs with
  | nil => rfl
  | cons p rest ih =>
    by_cases hp : p ∈ trainBad
    · have h1 : collectTrainIdx trainIds trainBad (p :: rest) =
          collectTrainIdx trainIds trainBad rest := by
        simp only [collectTrainIdx]
        rw [if_pos hp]
      rw [h1, List.filter_cons_of_neg (by simp [hp])]
      exact ih
    · rw [List.filter_cons_of_pos (by simp [hp])]
      simp only [collectTrainIdx]
      rw [if_neg hp, if_neg hp]
      cases lastTrainIdx trainIds p with
      | none => rfl
      | some i => rw [ih]

/-- The length of the aggregated value vector equals the number of cached
submissions. -/
theorem allPaperAff_ok_length (avg mx : Bool) (aff : ℕ → ℕ → ℚ)
    (idxs : List ℕ) (n : ℕ) (vals : List TorchVal)
    (h : allPaperAff avg mx aff idxs n = .ok vals) : vals.length = n := by
  unfold allPaperAff at h
  split at h
  · have hv : vals = (List.range n).map
        (fun j => torchMeanDim1 (idxs.map (fun i => aff j i))) :=
      ((Except.ok.injEq _ _).mp h).symm
    subst hv
    rw [List.length_map, List.length_range]
  · split at h
    · split at h
      · cases h
      · have hv : vals = (List.range n).map
            (fun j => TorchVal.num (qListMax (idxs.map (fun i => aff j i)))) :=
          ((Except.ok.injEq _ _).mp h).symm
        subst hv
        rw [List.length_map, List.length_range]
    · cases h

/-- The aggregated values only read the affinity matrix at the collected
usable indices. -/
theorem reviewerScoreEntries_congr_aff (avg mx : Bool)
    (aff aff' : ℕ → ℕ → ℚ) (testIds trainIds : List String)
    (trainBad : Finset String) (rid : String) (pubs : List String)
    (idxs : List ℕ)
    (hcoll : collectTrainIdx trainIds trainBad pubs = .ok idxs)
    (haff : ∀ j i, i ∈ idxs → aff j i = aff' j i) :
    reviewerScoreEntries avg mx aff testIds trainIds trainBad rid pubs =
      reviewerScoreEntries avg mx aff' testIds trainIds trainBad rid pubs := by
  by_cases hlen : pubs.length = 0
  · unfold reviewerScoreEntries
    rw [if_pos hlen, if_pos hlen]
  · have hmap : ∀ j, idxs.map (fun i => aff j i) =
        idxs.map (fun i => aff' j i) :=
      fun j => List.map_congr_left (fun i hi => haff j i hi)
    have hpa : allPaperAff avg mx aff idxs testIds.length =
        allPaperAff avg mx aff' idxs testIds.length := by
      unfold allPaperAff
      have h1 : (fun j => torchMeanDim1 (idxs.map (fun i => aff j i))) =
          (fun j => torchMeanDim1 (idxs.map (fun i => aff' j i))) := by
        funext j
        rw [hmap j]
      have h2 : (fun j => TorchVal.num (qListMax
            (idxs.map (fun i => aff j i)))) =
          (fun j => TorchVal.num (qListMax
            (idxs.map (fun i => aff' j i)))) := by
        funext j
        rw [hmap j]
      rw [h1, h2]
    rw [reviewerScoreEntries_eq avg mx aff testIds trainIds trainBad rid pubs
      idxs hlen hcoll,
      reviewerScoreEntries_eq avg mx aff' testIds trainIds trainBad rid pubs
      idxs hlen hcoll, hpa]

/-- Characterisation of one reviewer-loop iteration when the index
collection fails. -/
theorem reviewerScoreEntries_eq_err (avg mx : Bool) (aff : ℕ → ℕ → ℚ)
    (testIds trainIds : List String) (trainBad : Finset String)
    (rid : String) (pubs : List String) (e : PyErr)
    (hlen : ¬ pubs.length = 0)
    (hcoll : collectTrainIdx trainIds trainBad pubs = .error e) :
    reviewerScoreEntries avg mx aff testIds trainIds trainBad rid pubs =
      .error e := by
  unfold reviewerScoreEntries
  rw [if_neg hlen, hcoll]

/-- A non-skipped reviewer receives one entry per cached submission, in
order — including submissions in the (never consulted) test bad-id set. -/
theorem reviewerScoreEntries_covers_all_submissions (avg mx : Bool)
    (aff : ℕ → ℕ → ℚ) (testIds trainIds : List String)
    (trainBad : Finset String) (rid : String) (pubs : List String)
    (out : List RawScoreEntry) (hne : pubs ≠ [])
    (hok : reviewerScoreEntries avg mx aff testIds trainIds trainBad rid pubs
      = .ok out) :
    out.map (fun e => e.noteId) = testIds := by
  have hlen : ¬ pubs.length = 0 := fun h => hne (List.length_eq_zero.mp h)
  cases hcoll : collectTrainIdx trainIds trainBad pubs with
  | error e =>
    rw [reviewerScoreEntries_eq_err avg mx aff testIds trainIds trainBad rid
      pubs e hlen hcoll] at hok
    cases hok
  | ok idxs =>
    rw [reviewerScoreEntries_eq avg mx aff testIds trainIds trainBad rid
      pubs idxs hlen hcoll] at hok
    cases hpa : allPaperAff avg mx aff idxs testIds.length with
    | error e =>
      rw [hpa] at hok
      exact absurd hok (fun h => Except.noConfusion h)
    | ok vals =>
      rw [hpa] at hok
      have hvlen := allPaperAff_ok_length avg mx aff idxs testIds.length
        vals hpa
      have hout : out = (testIds.zip vals).map
          (fun p => (⟨p.1, rid, p.2⟩ : RawScoreEntry)) :=
        ((Except.ok.injEq _ _).mp hok).symm
      subst hout
      rw [List.map_map]
      have hcomp : ((fun e : RawScoreEntry => e.noteId) ∘
          (fun p : String × TorchVal =>
            (⟨p.1, rid, p.2⟩ : RawScoreEntry))) = Prod.fst := rfl
      rw [hcomp, List.map_fst_zip]
      exact le_of_eq hvlen.symm

/-- C4 (amended): every document whose embedding could not be computed is
recorded in a bad-id set; bad publications are excluded from every
reviewer's aggregation (the index filter drops them and the scores read
only usable columns); but bad submissions are not excluded: every
non-skipped reviewer emits an entry for every cached submission, bad or
not, and the submissions' bad-id set is never consulted. -/
theorem bad_pubs_excluded_bad_submissions_not :
    (∀ (recs : List EmbeddingRecord) (out : LoadedEmb),
      loadEmbFile recs = .ok out → ∀ r ∈ recs, r.embedding.length = 0 →
      r.paperId ∈ out.badIdSet) ∧
    (∀ (trainIds : List String) (trainBad : Finset String)
      (pubs : List String), collectTrainIdx trainIds trainBad pubs =
        collectTrainIdx trainIds trainBad
          (pubs.filter (fun p => decide (p ∉ trainBad)))) ∧
    (∀ (avg mx : Bool) (aff aff' : ℕ → ℕ → ℚ) (testIds trainIds : List String)
      (trainBad : Finset String) (rid : String) (pubs : List String)
      (idxs : List ℕ),
      collectTrainIdx trainIds trainBad pubs = .ok idxs →
      (∀ j i, i ∈ idxs → aff j i = aff' j i) →
      reviewerScoreEntries avg mx aff testIds trainIds trainBad rid pubs =
        reviewerScoreEntries avg mx aff' testIds trainIds trainBad rid pubs) ∧
    (∀ (avg mx : Bool) (aff : ℕ → ℕ → ℚ) (testIds trainIds : List String)
      (trainBad : Finset String) (rid : String) (pubs : List String)
      (out : List RawScoreEntry), pubs ≠ [] →
      reviewerScoreEntries avg mx aff testIds trainIds trainBad rid pubs
        = .ok out →
      out.map (fun e => e.noteId) = testIds) :=
  ⟨loadEmbFile_bad_mem,
   collectTrainIdx_filter_bad,
   fun avg mx aff aff' testIds trainIds trainBad rid pubs idxs hc ha =>
     reviewerScoreEntries_congr_aff avg mx aff aff' testIds trainIds trainBad
       rid pubs idxs hc ha,
   fun avg mx aff testIds trainIds trainBad rid pubs out hne hok =>
     reviewerScoreEntries_covers_all_submissions avg mx aff testIds trainIds
       trainBad rid pubs out hne hok⟩

set_option maxRecDepth 8000 in
theorem bad_pubs_excluded_bad_submissions_not_witness :
    (⟨"p0", []⟩ : EmbeddingRecord).paperId ∈
      (⟨["p0"], [List.replicate 768 0], {"p0"}⟩ : LoadedEmb).badIdSet ∧
    collectTrainIdx ["p1"] {"p0"} ["p0", "p1"] =
      collectTrainIdx ["p1"] {"p0"}
        (["p0", "p1"].filter (fun p => decide (p ∉ ({"p0"} : Finset String)))) ∧
    reviewerScoreEntries false true (fun _ _ => 0) ["s1"] ["p1"] ∅ "rev1"
        ["p1"] =
      reviewerScoreEntries false true (fun _ _ => 0) ["s1"] ["p1"] ∅ "rev1"
        ["p1"] ∧
    ([⟨"s1", "rev1", .num 0⟩] : List RawScoreEntry).map (fun e => e.noteId) =
      ["s1"] := by
  refine ⟨?_, ?_, ?_, ?_⟩
  · exact bad_pubs_excluded_bad_submissions_not.1 [⟨"p0", []⟩]
      ⟨["p0"], [List.replicate 768 0], {"p0"}⟩ rfl ⟨"p0", []⟩ (by decide) rfl
  · exact bad_pubs_excluded_bad_submissions_not.2.1 ["p1"] {"p0"} ["p0", "p1"]
  · exact bad_pubs_excluded_bad_submissions_not.2.2.1 false true
      (fun _ _ => 0) (fun _ _ => 0) ["s1"] ["p1"] ∅ "rev1" ["p1"] [0]
      (by decide) (fun _ _ _ => rfl)
  · exact bad_pubs_excluded_bad_submissions_not.2.2.2 false true
      (fun _ _ => 0) ["s1"] ["p1"] ∅ "rev1" ["p1"] [⟨"s1", "rev1", .num 0⟩]
      (by decide) (by decide)

set_option maxRecDepth 8000 in
/-- C4 counterexample: a submission with no computed embedding is recorded
in the bad-id set, yet `all_scores` still emits a score entry naming it —
the submissions' bad-id set is never consulted after loading. -/
theorem all_scores_emits_entry_for_bad_submission :
    loadEmbFile [⟨"s0", []⟩] =
      .ok ⟨["s0"], [List.replicate 768 0], {"s0"}⟩ ∧
    allScoresCompute (fun _ => 1) [⟨"p1", []⟩] [⟨"s0", []⟩]
      [("rev1", ["p1"])] true false = .ok [⟨"s0", "rev1", .nan⟩] :=
  ⟨rfl, rfl⟩

/-- C5: the two aggregation modes are mutually exclusive and fixed at
construction (`assert max_score ^ average_score` fails for both-or-neither),
and a reviewer with at least one usable publication receives, for each
submission, the maximum (max mode) or the arithmetic mean (average mode)
of the affinity values of that reviewer's usable publications. -/
theorem aggregation_modes (avg mx : Bool) (k : ℕ) (aff : ℕ → ℕ → ℚ)
    (testIds trainIds : List String) (trainBad : Finset String)
    (rid : String) (pubs : List String) (idxs : List ℕ)
    (hcoll : collectTrainIdx trainIds trainBad pubs = .ok idxs)
    (hpubs : ¬ pubs.length = 0) (hne : ¬ idxs.length = 0) :
    (mkSpecter2Predictor avg mx k = .error .assertFailed ↔
      xor mx avg = false) ∧
    reviewerScoreEntries false true aff testIds trainIds trainBad rid pubs =
      .ok ((testIds.zip ((List.range testIds.length).map
        (fun j => TorchVal.num (qListMax (idxs.map (fun i => aff j i)))))).map
        (fun p => ⟨p.1, rid, p.2⟩)) ∧
    reviewerScoreEntries true false aff testIds trainIds trainBad rid pubs =
      .ok ((testIds.zip ((List.range testIds.length).map
        (fun j => TorchVal.num ((idxs.map (fun i => aff j i)).sum /
          (((idxs.map (fun i => aff j i)).length : ℕ) : ℚ))))).map
        (fun p => ⟨p.1, rid, p.2⟩)) := by
  refine ⟨?_, ?_, ?_⟩
  · cases hx : xor mx avg
    · simp [mkSpecter2Predictor, hx]
    · simp [mkSpecter2Predictor, hx]
  · rw [reviewerScoreEntries_eq false true aff testIds trainIds trainBad rid
      pubs idxs hpubs hcoll]
    have haff : allPaperAff false true aff idxs testIds.length =
        .ok ((List.range testIds.length).map
          (fun j => TorchVal.num (qListMax (idxs.map (fun i => aff j i))))) := by
      unfold allPaperAff
      rw [if_neg (by simp), if_pos rfl, if_neg hne]
    rw [haff]
  · rw [reviewerScoreEntries_eq true false aff testIds trainIds trainBad rid
      pubs idxs hpubs hcoll]
    have hmean : (fun j => torchMeanDim1 (idxs.map (fun i => aff j i))) =
        (fun j => TorchVal.num ((idxs.map (fun i => aff j i)).sum /
          (((idxs.map (fun i => aff j i)).length : ℕ) : ℚ))) := by
      funext j
      unfold torchMeanDim1
      rw [if_neg (by rw [List.length_map]; exact hne)]
    have haff : allPaperAff true false aff idxs testIds.length =
        .ok ((List.range testIds.length).map
          (fun j => TorchVal.num ((idxs.map (fun i => aff j i)).sum /
            (((idxs.map (fun i => aff j i)).length : ℕ) : ℚ)))) := by
      unfold allPaperAff
      rw [if_pos rfl, hmean]
    rw [haff]

theorem aggregation_modes_witness :
    collectTrainIdx ["pA", "pB"] ∅ ["pA", "pB"] = .ok [0, 1] ∧
    (mkSpecter2Predictor true true 2 = .error .assertFailed ↔
      xor true true = false) ∧
    reviewerScoreEntries false true c5Aff ["s1"] ["pA", "pB"] ∅ "rev"
      ["pA", "pB"] = .ok [⟨"s1", "rev", .num (9 / 10)⟩] ∧
    reviewerScoreEntries true false c5Aff ["s1"] ["pA", "pB"] ∅ "rev"
      ["pA", "pB"] = .ok [⟨"s1", "rev", .num (11 / 20)⟩] := by
  refine ⟨by decide, ?_, ?_, ?_⟩
  · exact (aggregation_modes true true 2 c5Aff ["s1"] ["pA", "pB"] ∅ "rev"
      ["pA", "pB"] [0, 1] (by decide) (by decide) (by decide)).1
  · have h := (aggregation_modes true true 2 c5Aff ["s1"] ["pA", "pB"] ∅
      "rev" ["pA", "pB"] [0, 1] (by decide) (by decide) (by decide)).2.1
    rw [h]
    with_unfolding_all rfl
  · have h := (aggregation_modes true true 2 c5Aff ["s1"] ["pA", "pB"] ∅
      "rev" ["pA", "pB"] [0, 1] (by decide) (by decide) (by decide)).2.2
    rw [h]
    with_unfolding_all rfl

/-! ### The submitted token is never persisted (claim C9) -/

theorem kvLookup_kvErase_self {α : Type} (k : String) :
    ∀ l : List (String × α), kvLookup k (kvErase k l) = none := by
  intro l
  induction l with
  | nil => rfl
  | cons p rest ih =>
    by_cases hp : p.1 = k
    · rw [show kvErase k (p :: rest) = kvErase k rest from by
        simp [kvErase, List.filter_cons, hp]]
      exact ih
    · rw [show kvErase k (p :: rest) = p :: kvErase k rest from by
        simp [kvErase, List.filter_cons, hp]]
      simp only [kvLookup]
      rw [if_neg hp]
      exact ih

theorem kvLookup_map_replace {α : Type} (k k' : String) (v : α)
    (h : k' ≠ k) :
    ∀ l : List (String × α),
      kvLookup k (l.map (fun p => if p.1 = k' then (k', v) else p)) =
        kvLookup k l := by
  intro l
  induction l with
  | nil => rfl
  | cons p rest ih =>
    rw [List.map_cons]
    by_cases hp : p.1 = k'
    · rw [if_pos hp]
      simp only [kvLookup]
      rw [if_neg h, if_neg (fun hpk : p.1 = k => h (hp ▸ hpk))]
      exact ih
    · rw [if_neg hp]
      simp only [kvLookup]
      by_cases hpk : p.1 = k
      · rw [if_pos hpk, if_pos hpk]
      · rw [if_neg hpk, if_neg hpk]
        exact ih

theorem kvLookup_append_single {α : Type} (k k' : String) (v : α)
    (h : k' ≠ k) :
    ∀ l : List (String × α),
      kvLookup k (l ++ [(k', v)]) = kvLookup k l := by
  intro l
  induction l with
  | nil =>
    simp only [List.nil_append, kvLookup]
    rw [if_neg h]
  | cons p rest ih =>
    simp only [List.cons_append, kvLookup]
    by_cases hpk : p.1 = k
    · rw [if_pos hpk, if_pos hpk]
    · rw [if_neg hpk, if_neg hpk]
      exact ih

theorem kvLookup_kvSet_ne {α : Type} (k k' : String) (v : α)
    (h : k' ≠ k) (l : List (String × α)) :
    kvLookup k (kvSet k' v l) = kvLookup k l := by
  unfold kvSet
  split
  · exact kvLookup_map_replace k k' v h l
  · exact kvLookup_append_single k k' v h l

/-- Behaviour of `_prepare_config` once validation has succeeded. -/
theorem prepareConfig_eq_of_validate (workingDir : String) (now : ℕ)
    (request config : List (String × RVal))
    (hv : serverConfigValidate request = .ok config) :
    prepareConfig workingDir now request =
      match kvLookup "token" (serverFields workingDir now config) with
      | none => .error .keyMissing
      | some token =>
        .ok (kvErase "token" (serverFields workingDir now config), token,
          [.wroteConfigJson (jobIdOf config)
            (kvErase "token" (serverFields workingDir now config))]) := by
  unfold prepareConfig
  rw [hv]

/-- Both pieces of data returned by `_prepare_config` have the token
popped, and the only write it performs is of that token-less config. -/
theorem prepareConfig_ok (workingDir : String) (now : ℕ)
    (request c : List (String × RVal)) (t : RVal) (ev : List SubmitEvent)
    (h : prepareConfig workingDir now request = .ok (c, t, ev)) :
    kvLookup "token" c = none ∧
    ∃ jid, ev = [.wroteConfigJson jid c] := by
  cases hv : serverConfigValidate request with
  | error e =>
    rw [show prepareConfig workingDir now request = .error e from by
      unfold prepareConfig; rw [hv]] at h
    cases h
  | ok config =>
    rw [prepareConfig_eq_of_validate workingDir now request config hv] at h
    cases htok : kvLookup "token" (serverFields workingDir now config) with
    | none => rw [htok] at h; cases h
    | some token =>
      rw [htok] at h
      cases h
      exact ⟨kvLookup_kvErase_self "token" _, jobIdOf config, rfl⟩

/-- C9: no `config.json` written by the submit flow contains a `token`
key: the token is popped before the `Initialized` write and the `Queued`
rewrite uses the same token-less dictionary. -/
theorem token_never_persisted (freshId workingDir : String) (now : ℕ)
    (request : List (String × RVal)) (jobId : String)
    (config : List (String × RVal))
    (hw : SubmitEvent.wroteConfigJson jobId config ∈
      (startExpertise freshId workingDir now request).2) :
    kvLookup "token" config = none := by
  unfold startExpertise at hw
  cases hp : prepareConfig workingDir now
      (kvSet "job_id" (.str freshId) request) with
  | error e =>
    rw [hp] at hw
    simp at hw
  | ok trip =>
    obtain ⟨c, t, ev⟩ := trip
    rw [hp] at hw
    obtain ⟨hnone, jid, hev⟩ := prepareConfig_ok workingDir now _ c t ev hp
    subst hev
    simp only [List.mem_cons, List.cons_append, List.nil_append,
      List.mem_append, List.mem_singleton] at hw
    rcases hw with h | h | h | h | h | h
    · cases h
    · have hc : config = c := by
        injection h with h1 h2
      subst hc
      exact hnone
    · cases h
    · cases h
    · have hc : config = queuedConfig now c := by
        injection h with h1 h2
      subst hc
      unfold queuedConfig
      rw [kvLookup_kvSet_ne _ _ _ (by decide),
        kvLookup_kvSet_ne _ _ _ (by decide),
        kvLookup_kvSet_ne _ _ _ (by decide)]
      exact hnone
    · cases h

theorem token_never_persisted_witness :
    SubmitEvent.wroteConfigJson "abcde" c9InitConfig ∈
      (startExpertise "abcde" "/wd" 5 c9GoodRequest).2 ∧
    kvLookup "token" c9InitConfig = none :=
  ⟨by decide,
    token_never_persisted "abcde" "/wd" 5 c9GoodRequest "abcde" c9InitConfig
      (by decide)⟩

/-! ### Submit-time validation (claim C6) -/

/-- A request without the required `name` field is rejected by
`APIRequest.__init__` with the `BadRequest` missing-field error. -/
theorem validateAPIRequest_missing_name (req : List (String × RVal))
    (h : kvLookup "name" req = none) :
    validateAPIRequest req = .error (.missingField "request" "name") := by
  unfold validateAPIRequest getRequiredField
  rw [h]

/-- Keys other than the erased one survive `kvErase`. -/
theorem mem_keys_kvErase {α : Type} (k key : String) (l : List (String × α))
    (hk : k ≠ key) (h : k ∈ l.map (fun p => p.1)) :
    k ∈ (kvErase key l).map (fun p => p.1) := by
  obtain ⟨p, hp, rfl⟩ := List.mem_map.mp h
  exact List.mem_map.mpr ⟨p, List.mem_filter.mpr ⟨hp, by simpa using hk⟩, rfl⟩

/-- A successful `_get_required_field` returns the input with the key
popped. -/
theorem getRequiredField_ok {α : Type} (req : List (String × α))
    (superkey key : String) (v : α) (rest : List (String × α))
    (h : getRequiredField req superkey key = .ok (v, rest)) :
    rest = kvErase key req := by
  unfold getRequiredField at h
  cases hk : kvLookup key req with
  | none => rw [hk] at h; cases h
  | some w => rw [hk] at h; cases h; rfl

/-- A request accepted by `APIRequest.__init__` contains no unexpected
fields: every key is one of `name`, `entityA`, `entityB`, `model`. -/
theorem validateAPIRequest_no_unexpected (req : List (String × RVal))
    (v : APIRequestView) (hok : validateAPIRequest req = .ok v) :
    ∀ k ∈ req.map (fun p => p.1),
      k ∈ ["name", "entityA", "entityB", "model"] := by
  intro k hk
  by_contra hnot
  simp only [List.mem_cons, not_or] at hnot
  obtain ⟨hn, ha, hb, hm, -⟩ := hnot
  unfold validateAPIRequest at hok
  cases h1 : getRequiredField req "request" "name" with
  | error e => rw [h1] at hok; cases hok
  | ok pr1 =>
    obtain ⟨nameV, r1⟩ := pr1
    simp only [h1] at hok
    have hk1 : k ∈ r1.map (fun p => p.1) := by
      rw [getRequiredField_ok req "request" "name" nameV r1 h1]
      exact mem_keys_kvErase k "name" req hn hk
    cases h2 : getRequiredField r1 "request" "entityA" with
    | error e => rw [h2] at hok; cases hok
    | ok pr2 =>
      obtain ⟨entA, r2⟩ := pr2
      simp only [h2] at hok
      have hk2 : k ∈ r2.map (fun p => p.1) := by
        rw [getRequiredField_ok r1 "request" "entityA" entA r2 h2]
        exact mem_keys_kvErase k "entityA" r1 ha hk1
      cases h3 : getRequiredField r2 "request" "entityB" with
      | error e => rw [h3] at hok; cases hok
      | ok pr3 =>
        obtain ⟨entB, r3⟩ := pr3
        simp only [h3] at hok
        have hk3 : k ∈ r3.map (fun p => p.1) := by
          rw [getRequiredField_ok r2 "request" "entityB" entB r3 h3]
          exact mem_keys_kvErase k "entityB" r2 hb hk2
        cases h4 : loadEntity "entityA" entA with
        | error e => rw [h4] at hok; cases hok
        | ok va =>
          simp only [h4] at hok
          cases h5 : loadEntity "entityB" entB with
          | error e => rw [h5] at hok; cases hok
          | ok vb =>
            simp only [h5] at hok
            cases h6 : kvLookup "model" r3 with
            | some m =>
              simp only [h6] at hok
              by_cases he : (kvErase "model" r3).isEmpty
              · have hk4 : k ∈ (kvErase "model" r3).map (fun p => p.1) :=
                  mem_keys_kvErase k "model" r3 hm hk3
                rw [List.isEmpty_iff.mp he] at hk4
                simp at hk4
              · rw [if_neg he] at hok
                cases hok
            | none =>
              simp only [h6] at hok
              by_cases he : r3.isEmpty
              · rw [List.isEmpty_iff.mp he] at hk3
                simp at hk3
              · rw [if_neg he] at hok
                cases hok

/-- When a required config field is missing, the (spec-modelled)
`ServerConfig` validator rejects with a `BadRequest` missing-field
error. -/
theorem serverConfigValidate_missing (req : List (String × RVal))
    (h : ∃ k ∈ reqFields, kvLookup k req = none) :
    ∃ k', serverConfigValidate req =
      .error (.missingField "request" k') := by
  unfold serverConfigValidate
  have hf : (reqFields.find? (fun k => (kvLookup k req).isNone)).isSome := by
    rw [List.find?_isSome]
    obtain ⟨k, hk, hnone⟩ := h
    exact ⟨k, hk, by simp [hnone]⟩
  cases hfind : reqFields.find? (fun k => (kvLookup k req).isNone) with
  | none => rw [hfind] at hf; cases hf
  | some k' => exact ⟨k', rfl⟩

/-- A rejected submission performs no observable step beyond the job-id
allocation: no config write, no index entry, no enqueue. -/
theorem startExpertise_error_trace (freshId workingDir : String) (now : ℕ)
    (request : List (String × RVal)) (e : PyErr)
    (h : (startExpertise freshId workingDir now request).1 = .error e) :
    (startExpertise freshId workingDir now request).2 =
      [.allocatedJobId freshId] := by
  unfold startExpertise at h ⊢
  cases hp : prepareConfig workingDir now
      (kvSet "job_id" (.str freshId) request) with
  | error e' => rfl
  | ok trip =>
    obtain ⟨c, t, ev⟩ := trip
    rw [hp] at h
    simp at h

/-- C6 (amended): submit validates that the required fields are present
(`name`, `entityA`, `entityB` with their required sub-fields for the
new-API validator; the declared required config fields for the submit
flow) and that no unexpected field exists, rejecting with `BadRequest`
otherwise; the rejection happens after the fresh job id has been
generated and attached to the request, but before any job state is
created. -/
theorem submit_validation_after_id_allocation :
    (∀ req : List (String × RVal), kvLookup "name" req = none →
      validateAPIRequest req = .error (.missingField "request" "name")) ∧
    (∀ (req : List (String × RVal)) (v : APIRequestView),
      validateAPIRequest req = .ok v →
      ∀ k ∈ req.map (fun p => p.1),
        k ∈ ["name", "entityA", "entityB", "model"]) ∧
    (∀ req : List (String × RVal),
      (∃ k ∈ reqFields, kvLookup k req = none) →
      ∃ k', serverConfigValidate req =
        .error (.missingField "request" k')) ∧
    (∀ (freshId workingDir : String) (now : ℕ)
      (request : List (String × RVal)) (e : PyErr),
      (startExpertise freshId workingDir now request).1 = .error e →
      (startExpertise freshId workingDir now request).2 =
        [.allocatedJobId freshId]) :=
  ⟨validateAPIRequest_missing_name, validateAPIRequest_no_unexpected,
   serverConfigValidate_missing, startExpertise_error_trace⟩

theorem submit_validation_after_id_allocation_witness :
    validateAPIRequest [] = .error (.missingField "request" "name") ∧
    ("name" ∈ (["name", "entityA", "entityB", "model"] : List String)) ∧
    (∃ k', serverConfigValidate c6BadRequest =
      .error (.missingField "request" k')) ∧
    (startExpertise "abcde" "/wd" 0 c6BadRequest).2 =
      [.allocatedJobId "abcde"] := by
  refine ⟨?_, ?_, ?_, ?_⟩
  · exact submit_validation_after_id_allocation.1 [] rfl
  · exact submit_validation_after_id_allocation.2.1 c6GoodAPIRequest
      ⟨.str "test",
        ⟨.str "Group", some (.str "g1"), none, none, none⟩,
        ⟨.str "Note", none, none, some (.str "inv1"), none⟩, .obj []⟩
      (by decide) "name" (by decide)
  · exact submit_validation_after_id_allocation.2.2.1 c6BadRequest
      ⟨"match_group", by decide, by decide⟩
  · exact submit_validation_after_id_allocation.2.2.2 "abcde" "/wd" 0
      c6BadRequest (.missingField "request" "match_group") (by decide)

/-- C6 counterexample: a request missing the required `match_group` field
is rejected with the `BadRequest` missing-field error, but the job id has
already been allocated when the rejection happens: the trace of the
failed submission contains the allocation event. -/
theorem job_id_allocated_before_rejection :
    (startExpertise "abcde" "/wd" 0 c6BadRequest).1 =
      .error (.missingField "request" "match_group") ∧
    SubmitEvent.allocatedJobId "abcde" ∈
      (startExpertise "abcde" "/wd" 0 c6BadRequest).2 :=
  ⟨by decide, by decide⟩

/-! ### Status lookup (claim C7) -/

/-- `get_expertise_status` never writes: the state, and in particular the
user index, is returned unchanged. -/
theorem getExpertiseStatus_state (st : ServiceState) (userId jobId : String) :
    (getExpertiseStatus st userId jobId).2 = st := by
  unfold getExpertiseStatus
  split
  · rfl
  · rcases hm : matchingDirs st userId jobId with _ | ⟨d, rest⟩
    · rfl
    · rfl

/-- Behaviour of `load_job` once the Redis key is found. -/
theorem loadJob_eq_some (rs : RedisState) (jobId userId : String)
    (cfg : RedisJob)
    (hfind : rs.store.find? (fun j => j.jobId == jobId) = some cfg) :
    loadJob rs jobId userId =
      if cfg.jobDir ∉ rs.fsDirs then
        match removeJob rs userId jobId with
        | (.error e, rs1) => (.error e, rs1)
        | (.ok _, rs1) => (.error .notFoundJob, rs1)
      else if cfg.userId ≠ userId ∧ userId ∉ superuserIds then
        (.error .forbiddenAccess, rs)
      else (.ok cfg, rs) := by
  unfold loadJob
  rw [hfind]

/-- Behaviour of `remove_job` once the Redis key is found. -/
theorem removeJob_eq_some (rs : RedisState) (userId jobId : String)
    (cfg : RedisJob)
    (hfind : rs.store.find? (fun j => j.jobId == jobId) = some cfg) :
    removeJob rs userId jobId =
      if cfg.userId ≠ userId ∧ userId ∉ superuserIds then
        (.error .forbiddenModify, rs)
      else
        (.ok cfg, ⟨rs.store.filter (fun j => decide (j.jobId ≠ jobId)),
          rs.fsDirs⟩) := by
  unfold removeJob
  rw [hfind]

/-- C7 (amended): the status lookup fails with `Job not found` when the
job does not belong to the (non-superuser) caller and when no directory
backs the job, but the read leaves the service state — in particular the
user index — untouched: no stale entry is purged.  (The Redis-backed
`JobConfig.load_job` does purge the stale entry for an owning caller,
answering `Job not found`.) -/
theorem status_lookup_not_found_no_purge (st : ServiceState)
    (userId jobId : String)
    (hnotsuper : ¬ strLower userId ∈ superuserIds)
    (hforeign : ∀ d ∈ st.dirs, d.dirName = jobId →
      kvLookup "user_id" d.config ≠ some (.str userId)) :
    (getExpertiseStatus st userId jobId).1 = .error .notFoundJob ∧
    (getExpertiseStatus st userId jobId).2 = st ∧
    (∀ (rs : RedisState) (cfg : RedisJob),
      rs.store.find? (fun j => j.jobId == jobId) = some cfg →
      ¬ cfg.jobDir ∈ rs.fsDirs → cfg.userId = userId →
      (loadJob rs jobId userId).1 = .error .notFoundJob ∧
      (loadJob rs jobId userId).2.store =
        rs.store.filter (fun j => decide (j.jobId ≠ jobId))) := by
  have hmatch : matchingDirs st userId jobId = [] := by
    apply List.filter_eq_nil_iff.mpr
    intro d hd
    unfold getSubdirs at hd
    rw [if_neg hnotsuper] at hd
    obtain ⟨hdm, hpred⟩ := List.mem_filter.mp hd
    intro hname
    have hn : d.dirName = jobId := by simpa using hname
    cases hlk : kvLookup "user_id" d.config with
    | none => rw [hlk] at hpred; cases hpred
    | some v =>
      rw [hlk] at hpred
      cases v with
      | str s =>
        have hs : s = userId := by simpa using hpred
        exact hforeign d hdm hn (by rw [hlk, hs])
      | nat n => cases hpred
      | obj fields => cases hpred
  refine ⟨?_, getExpertiseStatus_state st userId jobId, ?_⟩
  · unfold getExpertiseStatus
    rw [hmatch]
    rfl
  · intro rs cfg hfind hdir howner
    rw [loadJob_eq_some rs jobId userId cfg hfind, if_pos hdir,
      removeJob_eq_some rs userId jobId cfg hfind,
      if_neg (fun hcon => hcon.1 howner)]
    exact ⟨rfl, rfl⟩

theorem status_lookup_not_found_no_purge_witness :
    (¬ strLower "alice" ∈ superuserIds) ∧
    (getExpertiseStatus c7StaleState "alice" "job3").1 =
      .error .notFoundJob ∧
    (getExpertiseStatus c7StaleState "alice" "job3").2 = c7StaleState ∧
    (loadJob c7RedisStale "job3" "alice").1 = .error .notFoundJob ∧
    (loadJob c7RedisStale "job3" "alice").2.store =
      c7RedisStale.store.filter (fun j => decide (j.jobId ≠ "job3")) := by
  have h := status_lookup_not_found_no_purge c7StaleState "alice" "job3"
    (by decide) (fun d hd => absurd hd (List.not_mem_nil d))
  have h3 := h.2.2 c7RedisStale ⟨"job3", "alice", "dir3"⟩ (by decide)
    (by decide) rfl
  exact ⟨by decide, h.1, h.2.1, h3.1, h3.2⟩

/-- C7 counterexample: reading the status of a job whose directory is
gone answers `Job not found` but leaves the stale index entry in place —
the service read purges nothing — and the Redis-backed `load_job` answers
`Forbidden`, not `NotFound`, for a job that merely belongs to someone
else. -/
theorem status_read_leaves_stale_index :
    getExpertiseStatus c7StaleState "alice" "job1" =
      (.error .notFoundJob, c7StaleState) ∧
    c7StaleState.index = [("alice", ["job1"])] ∧
    (loadJob c7RedisState "job2" "bob").1 = .error .forbiddenAccess :=
  ⟨by decide, rfl, by decide⟩
